import Mathlib

/-!
# qaz: the interactive shell commands and the `parameters` dump

A shallow embedding of `commands/shell.go` (the command closures built by
`initShell`) and of `parametersCmd` in `commands/outputs.go`.

Every command closure becomes a function from its inputs (arguments, the
operator's answers, the registry) to a `Result`: the registry afterwards,
the trace of observable calls in program order, and how the closure ended.
The `stacks`, `log`, `ishell` and Go standard-library calls the closures make
are not part of these files; their results are supplied by an `Env`.
-/

namespace Qaz

/-! ## Data model -/

/-- Colours of the `log` package that the commands pass to `log.ColorString`. -/
inductive Color where
  | MAGENTA | CYAN | RED | GREEN | YELLOW
deriving DecidableEq

/-- A CloudFormation parameter: `ParameterKey` and `ParameterValue`. -/
structure Parameter where
  ParameterKey : String
  ParameterValue : String
deriving DecidableEq

/-- One deployed-instance record of `Output.Stacks`, as far as `parametersCmd` reads it. -/
structure DeployedStack where
  Parameters : List Parameter
deriving DecidableEq

/-- The fields of `stacks.Stack` that the commands read or write. -/
structure Stack where
  Stackname : String
  Source : String
  Template : String
  Parameters : List Parameter
  Output : List DeployedStack
  Actioned : Bool
deriving DecidableEq

/-- Modelled from the spec: the registry `stacks.Map` (its package is not among the
sources), a mapping from name to Stack. The entries are kept in the order in which
`Range` visits them. -/
structure Map where
  entries : List (String × Stack)
deriving DecidableEq

/-- Modelled from the spec: `get(name) -> Stack?`, the lookup that reports absence. -/
def Map.Get (m : Map) (k : String) : Option Stack :=
  (m.entries.find? (fun e => e.1 = k)).map Prod.snd

/-- Modelled from the spec: `mustGet(name) -> Stack`, the forced lookup; `none` stands
for its failure on an absent name, which is not a recoverable condition. -/
def Map.MustGet (m : Map) (k : String) : Option Stack :=
  m.Get k

/-- Modelled from the spec: `count() -> int`. -/
def Map.Count (m : Map) : Nat :=
  m.entries.length

/-- The names of the registry, in visiting order. -/
def Map.keys (m : Map) : List String :=
  m.entries.map Prod.fst

/-- Writing through the pointer that `MustGet(k)` returned: the stack stored under `k`
is replaced by `f` of it. -/
def Map.modify (m : Map) (k : String) (f : Stack → Stack) : Map :=
  ⟨m.entries.map (fun e => if e.1 = k then (e.1, f e.2) else e)⟩

/-- The visiting loop of `Range` over a list of entries: `visit` receives the name, the
stack and the state of the variables it captures, and returns the stack as it left it,
the new state and whether to go on. -/
def rangeEntries {σ : Type} (visit : String → Stack → σ → Stack × σ × Bool) :
    List (String × Stack) → σ → List (String × Stack) × σ
  | [], st => ([], st)
  | (k, s) :: rest, st =>
    match visit k s st with
    | (s', st', true) =>
      let r := rangeEntries visit rest st'
      ((k, s') :: r.1, r.2)
    | (s', st', false) => ((k, s') :: rest, st')

/-- Modelled from the spec: `range(visit)`, which calls `visit` for each entry and stops
early when `visit` returns false. -/
def Map.Range {σ : Type} (m : Map) (visit : String → Stack → σ → Stack × σ × Bool)
    (st : σ) : Map × σ :=
  let r := rangeEntries visit m.entries st
  (⟨r.1⟩, r.2)

/-! ## Observable calls -/

/-- The calls a command makes that leave the closure, in the order it makes them. -/
inductive Event where
  | get (k : String)
  | mustGet (k : String)
  | genTimeParser (k : String)
  | check (k : String)
  | change (k : String) (op : String) (changeName : String)
  | stackPolicy (k : String)
  | deployHandler
  | terminateHandler
  | checklist (options : List String) (msg : String)
  | print (text : String)
  | readLine (resp : String)
  | logError (msg : String)
  | logWarn (msg : String)
  | logInfo (msg : String)
  | logDebug (msg : String)
  | writeFile (name : String) (content : String)
  | lookPath (file : String)
  | exec (cmd : String) (arg : String)
deriving DecidableEq

/-- How a command closure ended: it returned, a forced lookup or an index failed, or it
is blocked in `ReadLine` because the operator has typed nothing further. -/
inductive Status where
  | returned | crashed | waiting
deriving DecidableEq

/-- What a command leaves behind. -/
structure Result where
  stks : Map
  trace : List Event
  status : Status
deriving DecidableEq

/-- The results of the calls that leave these files. An error value is `some msg`,
`nil` is `none`. -/
structure Env where
  /-- the package variable `project` -/
  project : String
  /-- `config.Project` -/
  configProject : String
  /-- `log.ColorString` -/
  ColorString : String → Color → String
  /-- `unicode.ToLower` on the runes above `unicode.MaxASCII` -/
  toLowerTable : Char → Char
  /-- `(*Stack).GenTimeParser`: the rendered template, or an error -/
  GenTimeParser : Stack → Except String String
  /-- `(*Stack).Check` -/
  Check : Stack → Option String
  /-- `(*Stack).Change` with the operation and the change name -/
  Change : Stack → String → String → Option String
  /-- `(*Stack).StackPolicy` -/
  StackPolicy : Stack → Option String
  /-- what `stacks.DeployHandler` leaves in the registry -/
  DeployHandler : Map → Map
  /-- what `stacks.TerminateHandler` leaves in the registry -/
  TerminateHandler : Map → Map
  /-- colouring of the matches of `OutputRegex` in a text -/
  highlight : String → String
  /-- `ioutil.WriteFile` -/
  WriteFile : String → String → Option String
  /-- `exec.LookPath` -/
  LookPath : String → Option String
  /-- running `cfn-lint` on a file -/
  RunLint : String → Option String

/-! ## `strings.ToLower` -/

/-- The rune mapping `unicode.ToLower`: below `utf8.RuneSelf` the letters `A` to `Z` are
shifted by `'a' - 'A'`, any other rune goes through the case table. -/
def toLowerRune (tbl : Char → Char) (r : Char) : Char :=
  if r.toNat < 128 then
    if 65 ≤ r.toNat ∧ r.toNat ≤ 90 then Char.ofNat (r.toNat + 32) else r
  else tbl r

/-- The function `strings.ToLower`: every rune of the string mapped by `unicode.ToLower`.
A string is a sequence of runes here; Go strings that are not valid UTF-8 have no
counterpart. -/
def ToLower (tbl : Char → Char) (s : String) : String :=
  ⟨s.data.map (toLowerRune tbl)⟩

/-! ## The `update` command -/

/-- The confirmation prompt of `update`. -/
def confirmPrompt (env : Env) : String :=
  "--\n" ++ env.ColorString "The above will be updated, do you want to proceed?" Color.RED
    ++ " [" ++ env.ColorString "Y/N" Color.CYAN ++ "]: "

/-- The text of the warning for an answer that is neither yes nor no. -/
def invalidResponse : String :=
  "invalid response, please type \"Y\" or \"N\""

/-- One `case` of the confirmation switch: `stks.MustGet(s).Change(op, run.changeName)`,
an error is logged, success of `execute` is reported; the closure returns either way. -/
def changeCase (env : Env) (stks : Map) (s op changeName : String) (done : List Event) :
    List Event × Option Status :=
  match stks.MustGet s with
  | none => ([Event.mustGet s], some Status.crashed)
  | some stk =>
    match env.Change stk op changeName with
    | some err =>
      ([Event.mustGet s, Event.change s op changeName, Event.logError err],
        some Status.returned)
    | none =>
      (Event.mustGet s :: Event.change s op changeName :: done, some Status.returned)

/-- One pass through the body of the confirmation loop in which `ReadLine` gave `resp`.
The second component is `none` when the body ends in `continue`. -/
def confirmBody (env : Env) (stks : Map) (s changeName resp : String) :
    List Event × Option Status :=
  let r :=
    if ToLower env.toLowerTable resp = "y" then
      changeCase env stks s "execute" changeName
        [Event.logInfo "update completed successfully..."]
    else if ToLower env.toLowerTable resp = "n" then
      changeCase env stks s "rm" changeName []
    else
      ([Event.logWarn invalidResponse], none)
  (Event.print (confirmPrompt env) :: Event.readLine resp :: r.1, r.2)

/-- The confirmation loop `for { ... }` run against the lines the operator types. When
the lines run out the loop has printed its prompt and is blocked in `ReadLine`. -/
def confirmLoop (env : Env) (stks : Map) (s changeName : String) :
    List String → List Event × Status
  | [] => ([Event.print (confirmPrompt env)], Status.waiting)
  | resp :: rest =>
    match confirmBody env stks s changeName resp with
    | (evs, some st) => (evs, st)
    | (evs, none) =>
      let r := confirmLoop env stks s changeName rest
      (evs ++ r.1, r.2)

/-! ## Plumbing shared by the command closures -/

/-- Events that happened before the rest of a closure ran. -/
def Result.after (evs : List Event) (r : Result) : Result :=
  { r with trace := evs ++ r.trace }

/-- A use of `stks.MustGet(k)`: the rest of the closure runs on the stack found; on an
absent name the forced lookup fails and the closure does not go on. -/
def withMustGet (stks : Map) (k : String) (rest : Stack → Result) : Result :=
  match stks.MustGet k with
  | none => ⟨stks, [Event.mustGet k], Status.crashed⟩
  | some stk => (rest stk).after [Event.mustGet k]

/-- The message for a name that `Get` does not find. -/
def notFound (s : String) : String :=
  "stack [" ++ s ++ "] not found in config"

/-- The message for a stack without a source. -/
def sourceNotFound : String :=
  "source not found in config file..."

/-- The line printed when a batch command hands control back. -/
def pressEnter (env : Env) : String :=
  "--\nPress " ++ env.ColorString "ENTER" Color.GREEN ++ " to return\n--\n"

/-- Storing the rendered template on the stack under `k`, as `GenTimeParser` does. -/
def storeTemplate (stks : Map) (k tpl : String) : Map :=
  stks.modify k (fun x => { x with Template := tpl })

/-- The `update` command. `rnd` is the value of `rand.Int()`, `lines` are the answers
the operator types at the confirmation prompt. -/
def updateCmd (env : Env) (rnd : Nat) (args : List String) (lines : List String)
    (stks : Map) : Result :=
  match args with
  | [] => ⟨stks, [Event.logWarn "please specify stack name..."], Status.returned⟩
  | s :: _ =>
    match stks.Get s with
    | none => ⟨stks, [Event.get s, Event.logError (notFound s)], Status.returned⟩
    | some _ =>
      Result.after [Event.get s] <|
      withMustGet stks s fun stk =>
      if stk.Source = "" then ⟨stks, [Event.logError sourceNotFound], Status.returned⟩ else
      withMustGet stks s fun stk1 =>
      let changeName := stk1.Stackname ++ "-change-" ++ toString rnd
      withMustGet stks s fun stk2 =>
      match env.GenTimeParser stk2 with
      | Except.error err =>
        ⟨stks, [Event.genTimeParser s, Event.logError err], Status.returned⟩
      | Except.ok tpl =>
        let stks1 := storeTemplate stks s tpl
        Result.after [Event.genTimeParser s] <|
        withMustGet stks1 s fun stk3 =>
        match env.Change stk3 "create" changeName with
        | some err =>
          ⟨stks1, [Event.change s "create" changeName, Event.logError err], Status.returned⟩
        | none =>
          Result.after [Event.change s "create" changeName] <|
          withMustGet stks1 s fun stk4 =>
          match env.Change stk4 "desc" changeName with
          | some err =>
            ⟨stks1, [Event.change s "desc" changeName, Event.logError err], Status.returned⟩
          | none =>
            let r := confirmLoop env stks1 s changeName lines
            ⟨stks1, Event.change s "desc" changeName :: r.1, r.2⟩

/-! ## The `generate`, `check` and `lint` commands -/

/-- The `generate` command. With no argument the name stays the empty string. -/
def generateCmd (env : Env) (args : List String) (stks : Map) : Result :=
  let s := args.headD ""
  match stks.Get s with
  | none => ⟨stks, [Event.get s, Event.logError (notFound s)], Status.returned⟩
  | some _ =>
    Result.after [Event.get s] <|
    withMustGet stks s fun stk =>
    if stk.Source = "" then ⟨stks, [Event.logError sourceNotFound], Status.returned⟩ else
    let name := env.project ++ "-" ++ s
    Result.after [Event.logDebug ("generating a template for [" ++ name ++ "]")] <|
    withMustGet stks s fun stk1 =>
    match env.GenTimeParser stk1 with
    | Except.error err =>
      ⟨stks, [Event.genTimeParser s, Event.logError err], Status.returned⟩
    | Except.ok tpl =>
      let stks1 := storeTemplate stks s tpl
      Result.after [Event.genTimeParser s] <|
      withMustGet stks1 s fun stk2 =>
      ⟨stks1, [Event.print (env.highlight stk2.Template ++ "\n")], Status.returned⟩

/-- The `check` command: an error of `GenTimeParser` is logged and `Check` runs all
the same. -/
def checkCmd (env : Env) (args : List String) (stks : Map) : Result :=
  let s := args.headD ""
  match stks.Get s with
  | none => ⟨stks, [Event.get s, Event.logError (notFound s)], Status.returned⟩
  | some _ =>
    Result.after [Event.get s] <|
    withMustGet stks s fun stk =>
    if stk.Source = "" then ⟨stks, [Event.logError sourceNotFound], Status.returned⟩ else
    let name := env.configProject ++ "-" ++ s
    Result.after [Event.logDebug ("validating template for " ++ name)] <|
    withMustGet stks s fun stk1 =>
    let g : Map × List Event :=
      match env.GenTimeParser stk1 with
      | Except.error err => (stks, [Event.genTimeParser s, Event.logError err])
      | Except.ok tpl => (storeTemplate stks s tpl, [Event.genTimeParser s])
    Result.after g.2 <|
    withMustGet g.1 s fun stk2 =>
    match env.Check stk2 with
    | some err => ⟨g.1, [Event.check s, Event.logError err], Status.returned⟩
    | none => ⟨g.1, [Event.check s], Status.returned⟩

/-- The message of `lint` when `cfn-lint` is not installed. -/
def lintNotFound : String :=
  "cfn-lint executable not found! Please consider https://pypi.org/project/cfn-lint/ for help."

/-- The `lint` command. -/
def lintCmd (env : Env) (args : List String) (stks : Map) : Result :=
  let s := args.headD ""
  match stks.Get s with
  | none => ⟨stks, [Event.get s, Event.logError (notFound s)], Status.returned⟩
  | some _ =>
    Result.after [Event.get s] <|
    withMustGet stks s fun stk =>
    if stk.Source = "" then ⟨stks, [Event.logError sourceNotFound], Status.returned⟩ else
    let name := env.project ++ "-" ++ s
    Result.after [Event.logDebug ("generating a template for [" ++ name ++ "]")] <|
    withMustGet stks s fun stk1 =>
    match env.GenTimeParser stk1 with
    | Except.error err =>
      ⟨stks, [Event.genTimeParser s, Event.logError err], Status.returned⟩
    | Except.ok tpl =>
      let stks1 := storeTemplate stks s tpl
      Result.after [Event.genTimeParser s] <|
      withMustGet stks1 s fun stk2 =>
      let filename := "." ++ s ++ ".qaz"
      match env.WriteFile filename stk2.Template with
      | some err =>
        ⟨stks1, [Event.writeFile filename stk2.Template, Event.logError err], Status.returned⟩
      | none =>
        Result.after [Event.writeFile filename stk2.Template, Event.lookPath "cfn-lint"] <|
        match env.LookPath "cfn-lint" with
        | some _ => ⟨stks1, [Event.logError lintNotFound], Status.returned⟩
        | none =>
          match env.RunLint filename with
          | some err =>
            ⟨stks1, [Event.exec "cfn-lint" filename, Event.logError err], Status.returned⟩
          | none => ⟨stks1, [Event.exec "cfn-lint" filename], Status.returned⟩

/-! ## The batch commands `deploy`, `terminate` and `set-policy` -/

/-- The callback that collects the names: `stklist = append(stklist, k)`. -/
def collectName (k : String) (s : Stack) (stklist : List String) :
    Stack × List String × Bool :=
  (s, stklist ++ [k], true)

/-- The stack list of `deploy` and `terminate`: `var stklist []string`, filled by
`Range`. -/
def stackList (stks : Map) : List String :=
  (stks.Range collectName []).2

/-- The stack list of `set-policy`: `make([]string, stks.Count())`, a slice of
`Count()` empty strings, to which `Range` appends. -/
def policyStackList (stks : Map) : List String :=
  (stks.Range collectName (List.replicate stks.Count "")).2

/-- The loop over the checklist's answer that sets `Actioned`: a negative index
prints the return line and ends the command; `none` means the loop ran to its end. -/
def markActioned (env : Env) (stklist : List String) :
    List Int → Map → Map × List Event × Option Status
  | [], stks => (stks, [], none)
  | i :: rest, stks =>
    if i < 0 then (stks, [Event.print (pressEnter env)], some Status.returned)
    else
      match stklist[i.toNat]? with
      | none => (stks, [], some Status.crashed)
      | some k =>
        match stks.MustGet k with
        | none => (stks, [Event.mustGet k], some Status.crashed)
        | some _ =>
          let r := markActioned env stklist rest
            (stks.modify k (fun x => { x with Actioned := true }))
          (r.1, Event.mustGet k :: r.2.1, r.2.2)

/-- The callback of the generation pass of `deploy`. -/
def genVisit (env : Env) (k : String) (s : Stack) (tr : List Event) :
    Stack × List Event × Bool :=
  if !s.Actioned then (s, tr, true)
  else
    match env.GenTimeParser s with
    | Except.error err => (s, tr ++ [Event.genTimeParser k, Event.logError err], false)
    | Except.ok tpl => ({ s with Template := tpl }, tr ++ [Event.genTimeParser k], true)

/-- The `deploy` command; `choices` is what the checklist returned. -/
def deployCmd (env : Env) (choices : List Int) (stks : Map) : Result :=
  let stklist := stackList stks
  let ask := Event.checklist stklist
    ("select stacks to " ++ env.ColorString "Deploy" Color.CYAN ++ ":")
  match markActioned env stklist choices stks with
  | (stks1, evs, some st) => ⟨stks1, ask :: evs, st⟩
  | (stks1, evs, none) =>
    let r := stks1.Range (genVisit env) []
    ⟨env.DeployHandler r.1,
      ask :: evs ++ r.2 ++ [Event.deployHandler, Event.print (pressEnter env)],
      Status.returned⟩

/-- The `terminate` command. -/
def terminateCmd (env : Env) (choices : List Int) (stks : Map) : Result :=
  let stklist := stackList stks
  let ask := Event.checklist stklist
    ("select stacks to " ++ env.ColorString "Terminate" Color.RED ++ ":")
  match markActioned env stklist choices stks with
  | (stks1, evs, some st) => ⟨stks1, ask :: evs, st⟩
  | (stks1, evs, none) =>
    ⟨env.TerminateHandler stks1,
      ask :: evs ++ [Event.terminateHandler, Event.print (pressEnter env)],
      Status.returned⟩

/-- The callback of the policy pass of `set-policy`. Each call of `StackPolicy` runs in
a goroutine of its own; the trace lists the calls in the order they are started. -/
def policyVisit (env : Env) (k : String) (s : Stack) (tr : List Event) :
    Stack × List Event × Bool :=
  if !s.Actioned then (s, tr, true)
  else
    match env.StackPolicy s with
    | some err => (s, tr ++ [Event.stackPolicy k, Event.logError err], true)
    | none => (s, tr ++ [Event.stackPolicy k], true)

/-- The `set-policy` command. -/
def setPolicyCmd (env : Env) (choices : List Int) (stks : Map) : Result :=
  let stklist := policyStackList stks
  let ask := Event.checklist stklist
    ("select stacks to " ++ env.ColorString "set-policy" Color.YELLOW ++ ":")
  match markActioned env stklist choices stks with
  | (stks1, evs, some st) => ⟨stks1, ask :: evs, st⟩
  | (stks1, evs, none) =>
    let r := stks1.Range (policyVisit env) []
    ⟨r.1, ask :: evs ++ r.2, Status.returned⟩

/-! ## The `parameters` command -/

/-- The library call `sort.Slice` with the comparison `less`, modelled by an insertion
sort: the slice is rearranged so that no element is `less` than one before it. -/
def sortSlice {α : Type} (less : α → α → Prop) [DecidableRel less] (xs : List α) : List α :=
  xs.insertionSort (fun a b => ¬ less b a)

/-- The comparison handed to `sort.Slice`: by `ParameterKey`. -/
def keyLess (a b : Parameter) : Prop :=
  a.ParameterKey < b.ParameterKey

instance : DecidableRel keyLess :=
  fun a b => inferInstanceAs (Decidable (a.ParameterKey < b.ParameterKey))

/-- The inner loop over the local parameters `pl` for a deployed parameter `p`: what
it writes after `w`. -/
def writeLocalDiffs (env : Env) (locals : List Parameter) (p : Parameter)
    (w : List String) : List String :=
  locals.foldl
    (fun w pl =>
      if pl.ParameterKey = p.ParameterKey then
        if pl.ParameterValue ≠ p.ParameterValue then
          w ++ [" vs. " ++ env.ColorString pl.ParameterValue Color.RED]
        else w
      else w)
    w

/-- The body of the loop over the deployed parameters: the writes to the tabwriter `w`
for one parameter `p`, one list element per `Fprintf` or `Fprint`. -/
def writeParameter (env : Env) (locals : List Parameter) (w : List String)
    (p : Parameter) : List String :=
  let w1 := w ++ [env.ColorString p.ParameterKey Color.CYAN ++ "\t " ++ p.ParameterValue]
  let w2 := writeLocalDiffs env locals p w1
  w2 ++ ["\n"]

/-- What `parametersCmd` writes for one deployed-instance record: the parameters are
sorted by key, then written one by one. -/
def dumpParameters (env : Env) (locals : List Parameter) (stack : DeployedStack) :
    List String :=
  (sortSlice keyLess stack.Parameters).foldl (writeParameter env locals) []

/-- The loop of `parametersCmd` over the records of `MustGet(s).Output.Stacks`, each
flushed through a tabwriter of its own. -/
def parametersOutput (env : Env) (stk : Stack) : List (List String) :=
  stk.Output.map (dumpParameters env stk.Parameters)

/-! ## Reading a trace and a registry -/

/-- The operation of a change-set call, for any other event nothing. -/
def Event.changeOp? : Event → Option String
  | Event.change _ op _ => some op
  | _ => none

/-- The change-set operations issued in a trace, in order. -/
def changeOps (tr : List Event) : List String :=
  tr.filterMap Event.changeOp?

/-- The name in a call of `GenTimeParser`, for any other event nothing. -/
def Event.genCall? : Event → Option String
  | Event.genTimeParser k => some k
  | _ => none

/-- The stacks on which `GenTimeParser` is called in a trace, in order. -/
def genCalls (tr : List Event) : List String :=
  tr.filterMap Event.genCall?

/-- The name in a call of `StackPolicy`, for any other event nothing. -/
def Event.policyCall? : Event → Option String
  | Event.stackPolicy k => some k
  | _ => none

/-- The stacks on which `StackPolicy` is called in a trace, in order. -/
def policyCalls (tr : List Event) : List String :=
  tr.filterMap Event.policyCall?

/-- Whether an event is a call into the template resolver, the validator or the
change-set manager. -/
def Event.isResolverCall : Event → Bool
  | Event.genTimeParser _ => true
  | Event.check _ => true
  | Event.change _ _ _ => true
  | _ => false

/-- Whether an event is a call of `Check`. -/
def Event.isCheck : Event → Bool
  | Event.check _ => true
  | _ => false

/-- Whether an event is a forced lookup. -/
def Event.isMustGet : Event → Bool
  | Event.mustGet _ => true
  | _ => false

/-- The names of the stacks whose `Actioned` flag is set, in visiting order. -/
def Map.actioned (m : Map) : List String :=
  (m.entries.filter (fun e => e.2.Actioned)).map Prod.fst

/-- The registry in which the stacks named in `names` have `Actioned` set and nothing
else is changed. -/
def Map.mark (m : Map) (names : List String) : Map :=
  ⟨m.entries.map (fun e => if e.1 ∈ names then (e.1, { e.2 with Actioned := true }) else e)⟩

/-- The names a checklist answer denotes in a stack list: `stklist[i]` for each index. -/
def chosenNames (stklist : List String) (choices : List Int) : List String :=
  choices.filterMap (fun i => stklist[i.toNat]?)

/-- Whether every index of a checklist answer is non-negative, lies inside the stack
list and names a stack of the registry, so that the marking loop passes it. -/
def validChoices (stklist : List String) (stks : Map) (choices : List Int) : Bool :=
  choices.all (fun i => decide (0 ≤ i) &&
    match stklist[i.toNat]? with
    | some k => (stks.Get k).isSome
    | none => false)

/-- The text of the checklist of a batch command. -/
def selectMsg (env : Env) (what : String) (c : Color) : String :=
  "select stacks to " ++ env.ColorString what c ++ ":"

/-! ## Sample data -/

/-- An environment in which every outside call succeeds, text is left uncoloured and
the rendered template is the source. -/
def plainEnv : Env where
  project := "demo"
  configProject := "demo"
  ColorString := fun s _ => s
  toLowerTable := id
  GenTimeParser := fun s => Except.ok s.Source
  Check := fun _ => none
  Change := fun _ _ _ => none
  StackPolicy := fun _ => none
  DeployHandler := id
  TerminateHandler := id
  highlight := id
  WriteFile := fun _ _ => none
  LookPath := fun _ => none
  RunLint := fun _ => none

/-- An environment in which template generation fails and everything else succeeds. -/
def noGenEnv : Env :=
  { plainEnv with GenTimeParser := fun _ => Except.error "unresolved reference" }

/-- An environment in which template generation fails on `vpc` only. -/
def vpcFailsEnv : Env :=
  { plainEnv with
    GenTimeParser := fun s =>
      if s.Stackname = "demo-vpc" then Except.error "vpc: unresolved reference"
      else Except.ok s.Source }

/-- A stack `vpc`. -/
def vpc : Stack :=
  ⟨"demo-vpc", "Outputs: vpc_id", "", [], [], false⟩

/-- A stack `subnet` whose template refers to the output `vpc_id` of `vpc`. -/
def subnet : Stack :=
  ⟨"demo-subnet", "VpcId: \x7b\x7bvpc.vpc_id\x7d\x7d", "", [], [], false⟩

/-- A registry holding `vpc` and `subnet`, neither of them actioned. -/
def twoStacks : Map :=
  ⟨[("vpc", vpc), ("subnet", subnet)]⟩

/-- A stack without a source. -/
def bare : Stack :=
  ⟨"demo-bare", "", "", [], [], false⟩

/-- A registry holding only the stack without a source. -/
def bareStacks : Map :=
  ⟨[("bare", bare)]⟩

/-- Deployed parameters of a sample record, out of key order. -/
def deployedParams : List Parameter :=
  [⟨"Zone", "b"⟩, ⟨"Cidr", "10.0.0.0/16"⟩, ⟨"Env", "prod"⟩]

/-- Local parameters of the sample stack: `Env` differs from the deployed value,
`Cidr` agrees, `Zone` is not configured. -/
def localParams : List Parameter :=
  [⟨"Env", "dev"⟩, ⟨"Cidr", "10.0.0.0/16"⟩]

/-! ## Lemmas on `strings.ToLower` -/

/-- Below 128 a number is the code of the character made from it. -/
theorem toNat_ofNat_ascii (k : Nat) (h : k < 128) : (Char.ofNat k).toNat = k := by
  interval_cases k <;> rfl

/-- A lower-case ASCII letter `a` is the image under `unicode.ToLower` of itself and of
its upper-case form only, when the case table never yields `a`. -/
theorem toLowerRune_eq_lower (tbl : Char → Char) (a c : Char)
    (ha : 97 ≤ a.toNat ∧ a.toNat ≤ 122)
    (htbl : ∀ r : Char, ¬ r.toNat < 128 → tbl r ≠ a) :
    toLowerRune tbl c = a ↔ c = a ∨ c = Char.ofNat (a.toNat - 32) := by
  have hup : (Char.ofNat (a.toNat - 32)).toNat = a.toNat - 32 :=
    toNat_ofNat_ascii _ (by omega)
  unfold toLowerRune
  by_cases h1 : c.toNat < 128
  · rw [if_pos h1]
    by_cases h2 : 65 ≤ c.toNat ∧ c.toNat ≤ 90
    · rw [if_pos h2]
      constructor
      · intro h
        right
        have h3 : (Char.ofNat (c.toNat + 32)).toNat = a.toNat := by rw [h]
        rw [toNat_ofNat_ascii _ (by omega)] at h3
        rw [← Char.ofNat_toNat c]
        congr 1
        omega
      · rintro (h | h)
        · subst h; omega
        · have h3 : c.toNat = a.toNat - 32 := by rw [h, hup]
          rw [h3, ← Char.ofNat_toNat a]
          congr 1
          rw [Char.ofNat_toNat]
          omega
    · rw [if_neg h2]
      constructor
      · intro h; exact Or.inl h
      · rintro (h | h)
        · exact h
        · exfalso
          have h3 : c.toNat = a.toNat - 32 := by rw [h, hup]
          omega
  · rw [if_neg h1]
    constructor
    · intro h; exact absurd h (htbl c h1)
    · rintro (h | h)
      · subst h; omega
      · exfalso
        have h3 : c.toNat = a.toNat - 32 := by rw [h, hup]
        omega

/-- Only the one-letter strings `a` and its upper-case form lower to the string `a`. -/
theorem ToLower_data_eq_single (tbl : Char → Char) (a : Char) (s : String)
    (ha : 97 ≤ a.toNat ∧ a.toNat ≤ 122)
    (htbl : ∀ r : Char, ¬ r.toNat < 128 → tbl r ≠ a) :
    (ToLower tbl s).data = [a] ↔
      s.data = [a] ∨ s.data = [Char.ofNat (a.toNat - 32)] := by
  show List.map (toLowerRune tbl) s.data = [a] ↔ _
  match s.data with
  | [] => simp
  | [c] => simp [toLowerRune_eq_lower tbl a c ha htbl]
  | c :: d :: l => simp

theorem ToLower_eq_y (tbl : Char → Char)
    (htbl : ∀ r : Char, ¬ r.toNat < 128 → tbl r ≠ 'y') (s : String) :
    ToLower tbl s = "y" ↔ s = "y" ∨ s = "Y" := by
  have h := ToLower_data_eq_single tbl 'y' s (by decide) htbl
  rw [String.ext_iff, String.ext_iff, String.ext_iff]
  exact h

theorem ToLower_eq_n (tbl : Char → Char)
    (htbl : ∀ r : Char, ¬ r.toNat < 128 → tbl r ≠ 'n') (s : String) :
    ToLower tbl s = "n" ↔ s = "n" ∨ s = "N" := by
  have h := ToLower_data_eq_single tbl 'n' s (by decide) htbl
  rw [String.ext_iff, String.ext_iff, String.ext_iff]
  exact h

/-! ## The confirmation loop of `update` -/

/-- C1: in the confirmation loop of `update`, whatever line the operator types, `execute`
is issued exactly when the line is "y" or "Y", `rm` exactly when it is "n" or "N", and
on any other line (the empty line and "x" included) the body only logs the warning and
the loop shows the prompt again. -/
theorem confirm_only_yes_or_no (env : Env)
    (htbl : ∀ r : Char, ¬ r.toNat < 128 →
      env.toLowerTable r ≠ 'y' ∧ env.toLowerTable r ≠ 'n')
    (stks : Map) (s changeName : String) (stk : Stack) (hs : stks.Get s = some stk)
    (resp : String) (rest : List String) :
    ("execute" ∈ changeOps (confirmBody env stks s changeName resp).1 ↔
        resp = "y" ∨ resp = "Y") ∧
    ("rm" ∈ changeOps (confirmBody env stks s changeName resp).1 ↔
        resp = "n" ∨ resp = "N") ∧
    (¬ (resp = "y" ∨ resp = "Y" ∨ resp = "n" ∨ resp = "N") →
      confirmBody env stks s changeName resp =
        ([Event.print (confirmPrompt env), Event.readLine resp,
          Event.logWarn invalidResponse], none) ∧
      confirmLoop env stks s changeName (resp :: rest) =
        (Event.print (confirmPrompt env) :: Event.readLine resp ::
          Event.logWarn invalidResponse :: (confirmLoop env stks s changeName rest).1,
          (confirmLoop env stks s changeName rest).2) ∧
      (confirmLoop env stks s changeName rest).1.head? =
        some (Event.print (confirmPrompt env))) := by
  have hy := ToLower_eq_y env.toLowerTable (fun r h => (htbl r h).1) resp
  have hn := ToLower_eq_n env.toLowerTable (fun r h => (htbl r h).2) resp
  have hyn : ¬ (ToLower env.toLowerTable resp = "y" ∧ ToLower env.toLowerTable resp = "n") := by
    rintro ⟨h1, h2⟩
    rw [h1] at h2
    exact absurd h2 (by decide)
  refine ⟨?_, ?_, ?_⟩
  · rw [← hy]
    by_cases h1 : ToLower env.toLowerTable resp = "y"
    · cases hc : env.Change stk "execute" changeName <;>
        simp [confirmBody, changeCase, Map.MustGet, hs, h1, hc, changeOps, Event.changeOp?]
    · by_cases h2 : ToLower env.toLowerTable resp = "n"
      · cases hc : env.Change stk "rm" changeName <;>
          simp [confirmBody, changeCase, Map.MustGet, hs, h1, h2, hc, changeOps, Event.changeOp?]
      · simp [confirmBody, h1, h2, changeOps, Event.changeOp?]
  · rw [← hn]
    by_cases h1 : ToLower env.toLowerTable resp = "y"
    · have h2 : ¬ ToLower env.toLowerTable resp = "n" := fun h2 => hyn ⟨h1, h2⟩
      cases hc : env.Change stk "execute" changeName <;>
        simp [confirmBody, changeCase, Map.MustGet, hs, h1, h2, hc, changeOps, Event.changeOp?]
    · by_cases h2 : ToLower env.toLowerTable resp = "n"
      · cases hc : env.Change stk "rm" changeName <;>
          simp [confirmBody, changeCase, Map.MustGet, hs, h1, h2, hc, changeOps, Event.changeOp?]
      · simp [confirmBody, h1, h2, changeOps, Event.changeOp?]
  · intro h
    have h1 : ¬ ToLower env.toLowerTable resp = "y" := by
      rw [hy]; tauto
    have h2 : ¬ ToLower env.toLowerTable resp = "n" := by
      rw [hn]; tauto
    have hb : confirmBody env stks s changeName resp =
        ([Event.print (confirmPrompt env), Event.readLine resp,
          Event.logWarn invalidResponse], none) := by
      simp [confirmBody, h1, h2]
    refine ⟨hb, ?_, ?_⟩
    · simp [confirmLoop, hb]
    · cases rest with
      | nil => simp [confirmLoop]
      | cons r rs =>
        simp only [confirmLoop]
        have : ∃ t o, confirmBody env stks s changeName r =
            (Event.print (confirmPrompt env) :: t, o) := ⟨_, _, rfl⟩
        obtain ⟨t, o, ht⟩ := this
        rw [ht]
        cases o <;> simp

/-- The sample case table never yields `y` or `n` above ASCII. -/
theorem plain_table (r : Char) (h : ¬ r.toNat < 128) :
    plainEnv.toLowerTable r ≠ 'y' ∧ plainEnv.toLowerTable r ≠ 'n' := by
  constructor <;> (intro e; apply h; change r = _ at e; subst e; decide)

/-- C1 at the empty line and at "x": both are answered by the warning and a new prompt. -/
theorem confirm_only_yes_or_no_witness :
    confirmBody plainEnv twoStacks "vpc" "demo-vpc-change-7" "" =
        ([Event.print (confirmPrompt plainEnv), Event.readLine "",
          Event.logWarn invalidResponse], none) ∧
    confirmLoop plainEnv twoStacks "vpc" "demo-vpc-change-7" ["x", "Y"] =
        ([Event.print (confirmPrompt plainEnv), Event.readLine "x",
          Event.logWarn invalidResponse, Event.print (confirmPrompt plainEnv),
          Event.readLine "Y", Event.mustGet "vpc",
          Event.change "vpc" "execute" "demo-vpc-change-7",
          Event.logInfo "update completed successfully..."], Status.returned) :=
  ⟨((confirm_only_yes_or_no plainEnv plain_table twoStacks "vpc" "demo-vpc-change-7" vpc
      (by decide) "" []).2.2 (by decide)).1,
   by
    have h := ((confirm_only_yes_or_no plainEnv plain_table twoStacks "vpc"
      "demo-vpc-change-7" vpc (by decide) "x" ["Y"]).2.2 (by decide)).2.1
    rw [h]
    decide⟩

/-! ## Lemmas on the registry -/

/-- Looking up the name that was written through sees the written stack. -/
theorem get_modify_self (m : Map) (k : String) (f : Stack → Stack) :
    (m.modify k f).Get k = (m.Get k).map f := by
  obtain ⟨l⟩ := m
  simp only [Map.modify, Map.Get]
  induction l with
  | nil => rfl
  | cons e l ih =>
    by_cases h : e.1 = k
    · simp [List.find?, h]
    · simp only [List.map_cons, if_neg h, List.find?, decide_eq_false h]
      exact ih

theorem mustGet_storeTemplate (stks : Map) (k tpl : String) (stk : Stack)
    (h : stks.Get k = some stk) :
    (storeTemplate stks k tpl).MustGet k = some { stk with Template := tpl } := by
  simp [Map.MustGet, storeTemplate, get_modify_self, h]

/-! ## The change-set operations of `update` -/

theorem changeOps_cons (e : Event) (tr : List Event) :
    changeOps (e :: tr) = (e.changeOp?).toList ++ changeOps tr := by
  cases h : e.changeOp? <;> simp [changeOps, List.filterMap_cons, h]

theorem changeOps_append (a b : List Event) :
    changeOps (a ++ b) = changeOps a ++ changeOps b := by
  simp [changeOps, List.filterMap_append]

/-- The confirmation loop issues nothing, one `execute` or one `rm`, each on the
stack and under the change name it was given. -/
theorem confirmLoop_ops (env : Env) (stks : Map) (s changeName : String)
    (lines : List String) :
    (changeOps (confirmLoop env stks s changeName lines).1 = [] ∨
      changeOps (confirmLoop env stks s changeName lines).1 = ["execute"] ∨
      changeOps (confirmLoop env stks s changeName lines).1 = ["rm"]) ∧
    ∀ k op n, Event.change k op n ∈ (confirmLoop env stks s changeName lines).1 →
      k = s ∧ n = changeName := by
  induction lines with
  | nil => simp [confirmLoop, changeOps, Event.changeOp?]
  | cons resp rest ih =>
    by_cases h1 : ToLower env.toLowerTable resp = "y"
    · cases hm : stks.MustGet s with
      | none =>
        simp [confirmLoop, confirmBody, changeCase, h1, hm, changeOps, Event.changeOp?]
      | some stk =>
        cases hc : env.Change stk "execute" changeName <;>
          simp [confirmLoop, confirmBody, changeCase, h1, hm, hc, changeOps,
            Event.changeOp?] <;>
          exact fun k op n hk _ hn => ⟨hk, hn⟩
    · by_cases h2 : ToLower env.toLowerTable resp = "n"
      · cases hm : stks.MustGet s with
        | none =>
          simp [confirmLoop, confirmBody, changeCase, h1, h2, hm, changeOps,
            Event.changeOp?]
        | some stk =>
          cases hc : env.Change stk "rm" changeName <;>
            simp [confirmLoop, confirmBody, changeCase, h1, h2, hm, hc, changeOps,
              Event.changeOp?] <;>
            exact fun k op n hk _ hn => ⟨hk, hn⟩
      · have hb : confirmLoop env stks s changeName (resp :: rest) =
            (Event.print (confirmPrompt env) :: Event.readLine resp ::
              Event.logWarn invalidResponse :: (confirmLoop env stks s changeName rest).1,
              (confirmLoop env stks s changeName rest).2) := by
          simp [confirmLoop, confirmBody, h1, h2]
        rw [hb]
        refine ⟨?_, ?_⟩
        · simpa [changeOps_cons, Event.changeOp?] using ih.1
        · intro k op n hmem
          simp only [List.mem_cons] at hmem
          rcases hmem with h | h | h | h
          · cases h
          · cases h
          · cases h
          · exact ih.2 k op n h

/-- C2: a run of `update` on an existing stack with a source issues one of the five
sequences of change-set operations `[]`, `[create]`, `[create, desc]`,
`[create, desc, execute]`, `[create, desc, rm]`, every one on that stack under the one
generated change name; `create` needs a successful template generation, `desc` a
successful `create`, `execute` and `rm` a successful `desc`; `execute` is issued at
most once, and a failing `create` is the last operation. -/
theorem update_change_sequence (env : Env) (rnd : Nat) (s : String) (more lines : List String)
    (stks : Map) (stk : Stack) (hget : stks.Get s = some stk) (hsrc : stk.Source ≠ "") :
    (changeOps (updateCmd env rnd (s :: more) lines stks).trace ∈
      [[], ["create"], ["create", "desc"], ["create", "desc", "execute"],
        ["create", "desc", "rm"]]) ∧
    (∀ k op n, Event.change k op n ∈ (updateCmd env rnd (s :: more) lines stks).trace →
      k = s ∧ n = stk.Stackname ++ "-change-" ++ toString rnd) ∧
    ("create" ∈ changeOps (updateCmd env rnd (s :: more) lines stks).trace →
      ∃ tpl, env.GenTimeParser stk = Except.ok tpl) ∧
    ("desc" ∈ changeOps (updateCmd env rnd (s :: more) lines stks).trace →
      ∃ tpl, env.GenTimeParser stk = Except.ok tpl ∧
        env.Change { stk with Template := tpl } "create"
          (stk.Stackname ++ "-change-" ++ toString rnd) = none) ∧
    ("execute" ∈ changeOps (updateCmd env rnd (s :: more) lines stks).trace ∨
      "rm" ∈ changeOps (updateCmd env rnd (s :: more) lines stks).trace →
      ∃ tpl, env.GenTimeParser stk = Except.ok tpl ∧
        env.Change { stk with Template := tpl } "desc"
          (stk.Stackname ++ "-change-" ++ toString rnd) = none) ∧
    (changeOps (updateCmd env rnd (s :: more) lines stks).trace).count "execute" ≤ 1 ∧
    (∀ tpl err, env.GenTimeParser stk = Except.ok tpl →
      env.Change { stk with Template := tpl } "create"
        (stk.Stackname ++ "-change-" ++ toString rnd) = some err →
      changeOps (updateCmd env rnd (s :: more) lines stks).trace = ["create"]) := by
  cases hg : env.GenTimeParser stk with
  | error e =>
    simp [updateCmd, withMustGet, Result.after, Map.MustGet, hget, hsrc, hg, changeOps,
      Event.changeOp?]
  | ok tpl =>
    have hm : (storeTemplate stks s tpl).Get s = some { stk with Template := tpl } :=
      mustGet_storeTemplate stks s tpl stk hget
    cases hc : env.Change { stk with Template := tpl } "create"
        (stk.Stackname ++ "-change-" ++ toString rnd) with
    | some e =>
      simp [updateCmd, withMustGet, Result.after, Map.MustGet, hget, hsrc, hg, hm, hc,
        changeOps, Event.changeOp?]
      exact fun k op n hk _ hn => ⟨hk, hn⟩
    | none =>
      cases hd : env.Change { stk with Template := tpl } "desc"
          (stk.Stackname ++ "-change-" ++ toString rnd) with
      | some e =>
        simp [updateCmd, withMustGet, Result.after, Map.MustGet, hget, hsrc, hg, hm, hc, hd,
          changeOps, Event.changeOp?]
        refine ⟨?_, ?_⟩
        · rintro k op n (⟨h1, -, h3⟩ | ⟨h1, -, h3⟩) <;> exact ⟨h1, h3⟩
        · intro tpl' err h1
          subst h1
          rw [hc]
          simp
      | none =>
        have hl := confirmLoop_ops env (storeTemplate stks s tpl) s
          (stk.Stackname ++ "-change-" ++ toString rnd) lines
        have ht : (updateCmd env rnd (s :: more) lines stks).trace =
            [Event.get s, Event.mustGet s, Event.mustGet s, Event.mustGet s,
              Event.genTimeParser s, Event.mustGet s,
              Event.change s "create" (stk.Stackname ++ "-change-" ++ toString rnd),
              Event.mustGet s,
              Event.change s "desc" (stk.Stackname ++ "-change-" ++ toString rnd)] ++
            (confirmLoop env (storeTemplate stks s tpl) s
              (stk.Stackname ++ "-change-" ++ toString rnd) lines).1 := by
          simp [updateCmd, withMustGet, Result.after, Map.MustGet, hget, hsrc, hg, hm, hc, hd]
        rw [ht, changeOps_append]
        generalize (confirmLoop env (storeTemplate stks s tpl) s
              (stk.Stackname ++ "-change-" ++ toString rnd) lines).1 = tr at hl ⊢
        obtain ⟨hops, hnames⟩ := hl
        have hpre : changeOps [Event.get s, Event.mustGet s, Event.mustGet s, Event.mustGet s,
              Event.genTimeParser s, Event.mustGet s,
              Event.change s "create" (stk.Stackname ++ "-change-" ++ toString rnd),
              Event.mustGet s,
              Event.change s "desc" (stk.Stackname ++ "-change-" ++ toString rnd)] =
            ["create", "desc"] := by
          simp [changeOps, Event.changeOp?]
        rw [hpre]
        refine ⟨?_, ?_, ?_, ?_, ?_, ?_, ?_⟩
        · rcases hops with h | h | h <;> rw [h] <;> decide
        · intro k op n hmem
          rw [List.mem_append] at hmem
          rcases hmem with h | h
          · simp at h
            rcases h with ⟨h1, -, h3⟩ | ⟨h1, -, h3⟩ <;> exact ⟨h1, h3⟩
          · exact hnames k op n h
        · intro _; exact ⟨tpl, rfl⟩
        · intro _; exact ⟨tpl, rfl, hc⟩
        · intro _; exact ⟨tpl, rfl, hd⟩
        · rcases hops with h | h | h <;> rw [h] <;> decide
        · intro tpl' err h1 h2
          cases h1
          rw [hc] at h2
          cases h2

/-- C2 on the registry of `vpc` and `subnet`, the operator answering "y": the run
issues `create`, `desc`, `execute`. -/
theorem update_change_sequence_witness :
    twoStacks.Get "vpc" = some vpc ∧ vpc.Source ≠ "" ∧
    changeOps (updateCmd plainEnv 7 ["vpc"] ["y"] twoStacks).trace ∈
      [[], ["create"], ["create", "desc"], ["create", "desc", "execute"],
        ["create", "desc", "rm"]] ∧
    changeOps (updateCmd plainEnv 7 ["vpc"] ["y"] twoStacks).trace =
      ["create", "desc", "execute"] :=
  ⟨by decide, by decide,
    (update_change_sequence plainEnv 7 "vpc" [] ["y"] twoStacks vpc (by decide)
      (by decide)).1, by decide⟩

/-! ## The guards of `generate`, `check`, `update` and `lint` -/

/-- C6: in `generate`, `check`, `lint` and `update`, when `Get` does not find the name,
or finds a stack with an empty source, the command logs an error and returns with the
registry untouched: it calls neither `GenTimeParser` nor `Check` nor `Change`, and it
makes no forced lookup at all when `Get` reported absence. -/
theorem guards_stop_before_resolver (env : Env) (rnd : Nat) (args : List String)
    (s : String) (more lines : List String) (stks : Map)
    (hargs : args.headD "" = s)
    (h : stks.Get s = none ∨ ∃ stk, stks.Get s = some stk ∧ stk.Source = "") :
    ∀ r ∈ [generateCmd env args stks, checkCmd env args stks, lintCmd env args stks,
        updateCmd env rnd (s :: more) lines stks],
      r.status = Status.returned ∧ r.stks = stks ∧
      r.trace = (match stks.Get s with
        | none => [Event.get s, Event.logError (notFound s)]
        | some _ => [Event.get s, Event.mustGet s, Event.logError sourceNotFound]) ∧
      (∀ e ∈ r.trace, e.isResolverCall = false) ∧
      (stks.Get s = none → ∀ e ∈ r.trace, e.isMustGet = false) := by
  intro r hr
  simp only [List.mem_cons, List.mem_singleton, List.not_mem_nil, or_false] at hr
  rcases h with h | ⟨stk, h, hsrc⟩
  · rcases hr with rfl | rfl | rfl | rfl <;>
      simp only [generateCmd, checkCmd, lintCmd, updateCmd, hargs] <;>
      simp [h, Event.isResolverCall, Event.isMustGet]
  · rcases hr with rfl | rfl | rfl | rfl <;>
      simp only [generateCmd, checkCmd, lintCmd, updateCmd, hargs] <;>
      simp [withMustGet, Result.after, Map.MustGet, h, hsrc, Event.isResolverCall,
        Event.isMustGet]

/-- C6 on a name that is absent and on a stack without a source. -/
theorem guards_stop_before_resolver_witness :
    updateCmd plainEnv 7 ["nope"] ["y"] twoStacks =
      ⟨twoStacks, [Event.get "nope", Event.logError (notFound "nope")], Status.returned⟩ ∧
    (generateCmd plainEnv ["bare"] bareStacks).trace =
      [Event.get "bare", Event.mustGet "bare", Event.logError sourceNotFound] := by
  have h1 := guards_stop_before_resolver plainEnv 7 ["nope"] "nope" [] ["y"] twoStacks rfl
    (Or.inl (by decide)) (updateCmd plainEnv 7 ["nope"] ["y"] twoStacks) (by simp)
  have h2 := guards_stop_before_resolver plainEnv 7 ["bare"] "bare" [] [] bareStacks rfl
    (Or.inr ⟨bare, by decide, by decide⟩) (generateCmd plainEnv ["bare"] bareStacks)
    (by simp)
  refine ⟨?_, h2.2.2.1⟩
  obtain ⟨a, b, c, -⟩ := h1
  cases hr : updateCmd plainEnv 7 ["nope"] ["y"] twoStacks with
  | mk st tr ss =>
    rw [hr] at a b c
    simp only at a b c
    subst a b c
    rfl

/-! ## The `check` command -/

/-- C10: on an existing stack with a source, `check` calls `Check` exactly once whether
or not `GenTimeParser` failed; a generation error is logged and `Check` still follows,
whereas `generate`, `lint` and `update` stop at that error. -/
theorem check_validates_after_failed_generation (env : Env) (rnd : Nat)
    (args : List String) (s : String) (more lines : List String) (stks : Map) (stk : Stack)
    (hargs : args.headD "" = s) (hget : stks.Get s = some stk) (hsrc : stk.Source ≠ "") :
    (checkCmd env args stks).trace.countP Event.isCheck = 1 ∧
    (checkCmd env args stks).trace.count (Event.check s) = 1 ∧
    (checkCmd env args stks).status = Status.returned ∧
    (∀ err, env.GenTimeParser stk = Except.error err →
      (∃ post, (checkCmd env args stks).trace =
        [Event.get s, Event.mustGet s,
          Event.logDebug ("validating template for " ++ (env.configProject ++ "-" ++ s)),
          Event.mustGet s, Event.genTimeParser s, Event.logError err, Event.mustGet s,
          Event.check s] ++ post) ∧
      generateCmd env args stks =
        ⟨stks, [Event.get s, Event.mustGet s,
          Event.logDebug ("generating a template for [" ++ (env.project ++ "-" ++ s) ++ "]"),
          Event.mustGet s, Event.genTimeParser s, Event.logError err], Status.returned⟩ ∧
      lintCmd env args stks =
        ⟨stks, [Event.get s, Event.mustGet s,
          Event.logDebug ("generating a template for [" ++ (env.project ++ "-" ++ s) ++ "]"),
          Event.mustGet s, Event.genTimeParser s, Event.logError err], Status.returned⟩ ∧
      updateCmd env rnd (s :: more) lines stks =
        ⟨stks, [Event.get s, Event.mustGet s, Event.mustGet s, Event.mustGet s,
          Event.genTimeParser s, Event.logError err], Status.returned⟩) := by
  cases hg : env.GenTimeParser stk with
  | error e =>
    cases hc : env.Check stk <;>
      simp only [checkCmd, generateCmd, lintCmd, updateCmd, hargs] <;>
      simp [withMustGet, Result.after, Map.MustGet, hget, hsrc, hg, hc, Event.isCheck]
  | ok tpl =>
    have hm : (storeTemplate stks s tpl).Get s = some { stk with Template := tpl } :=
      mustGet_storeTemplate stks s tpl stk hget
    cases hc : env.Check { stk with Template := tpl } <;>
      simp only [checkCmd, hargs] <;>
      simp [withMustGet, Result.after, Map.MustGet, hget, hsrc, hg, hm, hc, Event.isCheck]

/-- C10 on the registry of `vpc` and `subnet` when template generation fails. -/
theorem check_validates_after_failed_generation_witness :
    twoStacks.Get "vpc" = some vpc ∧ vpc.Source ≠ "" ∧
    (checkCmd noGenEnv ["vpc"] twoStacks).trace.countP Event.isCheck = 1 ∧
    (checkCmd noGenEnv ["vpc"] twoStacks).trace =
      [Event.get "vpc", Event.mustGet "vpc",
        Event.logDebug "validating template for demo-vpc", Event.mustGet "vpc",
        Event.genTimeParser "vpc", Event.logError "unresolved reference",
        Event.mustGet "vpc", Event.check "vpc"] :=
  ⟨by decide, by decide,
    (check_validates_after_failed_generation noGenEnv 7 ["vpc"] "vpc" [] [] twoStacks vpc
      rfl (by decide) (by decide)).1, by decide⟩

/-! ## Lemmas on `Range` -/

theorem rangeEntries_cons_true {σ : Type} (visit : String → Stack → σ → Stack × σ × Bool)
    (k : String) (s s' : Stack) (st st' : σ) (l : List (String × Stack))
    (h : visit k s st = (s', st', true)) :
    rangeEntries visit ((k, s) :: l) st =
      ((k, s') :: (rangeEntries visit l st').1, (rangeEntries visit l st').2) := by
  simp [rangeEntries, h]

theorem rangeEntries_cons_false {σ : Type} (visit : String → Stack → σ → Stack × σ × Bool)
    (k : String) (s s' : Stack) (st st' : σ) (l : List (String × Stack))
    (h : visit k s st = (s', st', false)) :
    rangeEntries visit ((k, s) :: l) st = ((k, s') :: l, st') := by
  simp [rangeEntries, h]

theorem genVisit_skip (env : Env) (k : String) (s : Stack) (tr : List Event)
    (ha : s.Actioned = false) : genVisit env k s tr = (s, tr, true) := by
  simp [genVisit, ha]

theorem genVisit_fail (env : Env) (k : String) (s : Stack) (tr : List Event) (err : String)
    (ha : s.Actioned = true) (hg : env.GenTimeParser s = Except.error err) :
    genVisit env k s tr =
      (s, tr ++ [Event.genTimeParser k, Event.logError err], false) := by
  simp [genVisit, ha, hg]

theorem genVisit_ok (env : Env) (k : String) (s : Stack) (tr : List Event) (tpl : String)
    (ha : s.Actioned = true) (hg : env.GenTimeParser s = Except.ok tpl) :
    genVisit env k s tr =
      ({ s with Template := tpl }, tr ++ [Event.genTimeParser k], true) := by
  simp [genVisit, ha, hg]

/-- A callback that appends to the trace it is given can be run on the empty trace. -/
theorem rangeEntries_genVisit_acc (env : Env) (l : List (String × Stack))
    (tr : List Event) :
    rangeEntries (genVisit env) l tr =
      ((rangeEntries (genVisit env) l []).1, tr ++ (rangeEntries (genVisit env) l []).2) := by
  induction l generalizing tr with
  | nil => simp [rangeEntries]
  | cons e l ih =>
    obtain ⟨k, s⟩ := e
    cases ha : s.Actioned
    · rw [rangeEntries_cons_true _ k s _ tr _ l (genVisit_skip env k s tr ha),
        rangeEntries_cons_true _ k s _ [] _ l (genVisit_skip env k s [] ha), ih tr]
    · cases hg : env.GenTimeParser s with
      | error err =>
        rw [rangeEntries_cons_false _ k s _ tr _ l (genVisit_fail env k s tr err ha hg),
          rangeEntries_cons_false _ k s _ [] _ l (genVisit_fail env k s [] err ha hg)]
        simp
      | ok tpl =>
        rw [rangeEntries_cons_true _ k s _ tr _ l (genVisit_ok env k s tr tpl ha hg),
          rangeEntries_cons_true _ k s _ [] _ l (genVisit_ok env k s [] tpl ha hg),
          ih (tr ++ [Event.genTimeParser k]), ih ([] ++ [Event.genTimeParser k])]
        simp

/-- The trace of the generation pass over a list of entries. -/
theorem genPass_cons (env : Env) (k : String) (s : Stack) (l : List (String × Stack)) :
    (rangeEntries (genVisit env) ((k, s) :: l) []).2 =
      if s.Actioned then
        match env.GenTimeParser s with
        | Except.error err => [Event.genTimeParser k, Event.logError err]
        | Except.ok _ => Event.genTimeParser k :: (rangeEntries (genVisit env) l []).2
      else (rangeEntries (genVisit env) l []).2 := by
  cases ha : s.Actioned
  · rw [rangeEntries_cons_true _ k s _ [] _ l (genVisit_skip env k s [] ha)]
    simp
  · cases hg : env.GenTimeParser s with
    | error err =>
      rw [rangeEntries_cons_false _ k s _ [] _ l (genVisit_fail env k s [] err ha hg)]
      simp
    | ok tpl =>
      rw [rangeEntries_cons_true _ k s _ [] _ l (genVisit_ok env k s [] tpl ha hg),
        rangeEntries_genVisit_acc]
      simp

/-! ## The generation pass of `deploy` -/

theorem genCalls_cons (e : Event) (tr : List Event) :
    genCalls (e :: tr) = (e.genCall?).toList ++ genCalls tr := by
  cases h : e.genCall? <;> simp [genCalls, List.filterMap_cons, h]

theorem genCalls_append (a b : List Event) :
    genCalls (a ++ b) = genCalls a ++ genCalls b := by
  simp [genCalls, List.filterMap_append]

/-- The calls of the pass form an initial segment of the actioned names. -/
theorem genPass_initial (env : Env) (l : List (String × Stack)) :
    genCalls (rangeEntries (genVisit env) l []).2 <+:
      (l.filter (fun e => e.2.Actioned)).map Prod.fst := by
  induction l with
  | nil => simp [rangeEntries, genCalls]
  | cons e l ih =>
    obtain ⟨k, s⟩ := e
    rw [genPass_cons]
    cases ha : s.Actioned
    · simpa [ha] using ih
    · cases hg : env.GenTimeParser s with
      | error err =>
        simp [ha, genCalls, Event.genCall?]
      | ok tpl =>
        simp only [ha, if_true, genCalls_cons, Event.genCall?, Option.toList,
          List.singleton_append, List.filter_cons, List.map_cons]
        exact (List.prefix_cons_inj k).2 ih

/-- A failing call is the last call of the pass, and its error is logged. -/
theorem genPass_failure_last (env : Env) (l : List (String × Stack))
    (hnd : (l.map Prod.fst).Nodup) (k : String) (s : Stack) (err : String)
    (hmem : (k, s) ∈ l) (hg : env.GenTimeParser s = Except.error err)
    (hk : k ∈ genCalls (rangeEntries (genVisit env) l []).2) :
    (genCalls (rangeEntries (genVisit env) l []).2).getLast? = some k ∧
      Event.logError err ∈ (rangeEntries (genVisit env) l []).2 := by
  induction l with
  | nil => simp at hmem
  | cons e l ih =>
    obtain ⟨k0, s0⟩ := e
    have hnd' : (l.map Prod.fst).Nodup := (List.nodup_cons.1 hnd).2
    have hk0 : k0 ∉ l.map Prod.fst := (List.nodup_cons.1 hnd).1
    rcases List.mem_cons.1 hmem with h | h
    · cases h
      cases ha : s.Actioned
      · simp only [genPass_cons, ha, Bool.false_eq_true, if_false] at hk
        have hp := (genPass_initial env l).subset hk
        have hin : k ∈ l.map Prod.fst := by
          obtain ⟨e, he, rfl⟩ := List.mem_map.1 hp
          exact List.mem_map_of_mem _ (List.mem_of_mem_filter he)
        exact absurd hin hk0
      · simp [genPass_cons, ha, hg, genCalls, Event.genCall?]
    · have hne : k ≠ k0 := by
        rintro rfl
        exact hk0 (List.mem_map_of_mem Prod.fst h)
      cases ha : s0.Actioned
      · simp only [genPass_cons, ha, Bool.false_eq_true, if_false] at hk ⊢
        exact ih hnd' h hk
      · cases hg0 : env.GenTimeParser s0 with
        | error e0 =>
          simp [genPass_cons, ha, hg0, genCalls, Event.genCall?] at hk
          exact absurd hk hne
        | ok tpl =>
          simp only [genPass_cons, ha, hg0, if_true, genCalls_cons, Event.genCall?,
            Option.toList, List.singleton_append, List.mem_cons] at hk ⊢
          rcases hk with hk | hk
          · exact absurd hk hne
          · obtain ⟨h1, h2⟩ := ih hnd' h hk
            refine ⟨?_, Or.inr h2⟩
            rw [List.getLast?_cons, h1]
            rfl

/-- The pass either calls `GenTimeParser` on every actioned stack, or it ends with a
call that failed. -/
theorem genPass_complete_or_failed (env : Env) (l : List (String × Stack)) :
    genCalls (rangeEntries (genVisit env) l []).2 =
        (l.filter (fun e => e.2.Actioned)).map Prod.fst ∨
      ∃ k s err, (k, s) ∈ l ∧ s.Actioned = true ∧ env.GenTimeParser s = Except.error err ∧
        (genCalls (rangeEntries (genVisit env) l []).2).getLast? = some k := by
  induction l with
  | nil => simp [rangeEntries, genCalls]
  | cons e l ih =>
    obtain ⟨k0, s0⟩ := e
    cases ha : s0.Actioned
    · simp only [genPass_cons, ha, Bool.false_eq_true, if_false]
      rcases ih with h | ⟨k, s, err, h1, h2, h3, h4⟩
      · left; simpa [ha] using h
      · right; exact ⟨k, s, err, List.mem_cons_of_mem _ h1, h2, h3, h4⟩
    · cases hg0 : env.GenTimeParser s0 with
      | error e0 =>
        right
        refine ⟨k0, s0, e0, List.mem_cons_self _ _, ha, hg0, ?_⟩
        simp [genPass_cons, ha, hg0, genCalls, Event.genCall?]
      | ok tpl =>
        simp only [genPass_cons, ha, hg0, if_true, genCalls_cons, Event.genCall?,
          Option.toList, List.singleton_append]
        rcases ih with h | ⟨k, s, err, h1, h2, h3, h4⟩
        · left; simp [ha, h]
        · right
          refine ⟨k, s, err, List.mem_cons_of_mem _ h1, h2, h3, ?_⟩
          rw [List.getLast?_cons, h4]
          rfl

/-! ## The loop that sets `Actioned` -/

theorem mark_nil (m : Map) : m.mark [] = m := by
  obtain ⟨l⟩ := m
  simp [Map.mark]

theorem modify_eq_mark (m : Map) (k : String) :
    m.modify k (fun x => { x with Actioned := true }) = m.mark [k] := by
  obtain ⟨l⟩ := m
  simp [Map.modify, Map.mark]

theorem mark_mark (m : Map) (a b : List String) : (m.mark a).mark b = m.mark (a ++ b) := by
  obtain ⟨l⟩ := m
  simp only [Map.mark, List.map_map, Map.mk.injEq]
  apply List.map_congr_left
  intro e _
  by_cases ha : e.1 ∈ a <;> by_cases hb : e.1 ∈ b <;> simp [ha, hb]

theorem keys_mark (m : Map) (a : List String) : (m.mark a).keys = m.keys := by
  obtain ⟨l⟩ := m
  simp only [Map.mark, Map.keys, List.map_map]
  apply List.map_congr_left
  intro e _
  by_cases ha : e.1 ∈ a <;> simp [ha]

/-- The marking loop leaves the registry with `Actioned` set on some of the chosen names
and otherwise as it was; when it runs to its end, on all of them. -/
theorem markActioned_mark (env : Env) (stklist : List String) (choices : List Int)
    (stks : Map) :
    ∃ names, names ⊆ chosenNames stklist choices ∧
      (markActioned env stklist choices stks).1 = stks.mark names ∧
      ((markActioned env stklist choices stks).2.2 = none →
        names = chosenNames stklist choices) := by
  induction choices generalizing stks with
  | nil => exact ⟨[], by simp, by simp [markActioned, mark_nil], by simp [chosenNames]⟩
  | cons i rest ih =>
    by_cases hi : i < 0
    · exact ⟨[], by simp, by simp [markActioned, hi, mark_nil], by simp [markActioned, hi]⟩
    · cases hk : stklist[i.toNat]? with
      | none =>
        exact ⟨[], by simp, by simp [markActioned, hi, hk, mark_nil],
          by simp [markActioned, hi, hk]⟩
      | some k =>
        cases hm : stks.MustGet k with
        | none =>
          exact ⟨[], by simp, by simp [markActioned, hi, hk, hm, mark_nil],
            by simp [markActioned, hi, hk, hm]⟩
        | some s =>
          obtain ⟨names, h1, h2, h3⟩ :=
            ih (stks.modify k (fun x => { x with Actioned := true }))
          refine ⟨k :: names, ?_, ?_, ?_⟩
          · simp only [chosenNames, List.filterMap_cons, hk]
            exact List.cons_subset_cons k h1
          · simp only [markActioned, hi, if_false, hk, hm]
            rw [h2, modify_eq_mark, mark_mark]
            rfl
          · simp only [markActioned, hi, if_false, hk, hm]
            intro h
            rw [h3 h]
            simp [chosenNames, hk]

/-- The marking loop makes forced lookups and prints the return line, nothing else. -/
theorem markActioned_events (env : Env) (stklist : List String) (choices : List Int)
    (stks : Map) :
    ∀ e ∈ (markActioned env stklist choices stks).2.1,
      e.isMustGet = true ∨ e = Event.print (pressEnter env) := by
  induction choices generalizing stks with
  | nil => simp [markActioned]
  | cons i rest ih =>
    by_cases hi : i < 0
    · simp [markActioned, hi]
    · cases hk : stklist[i.toNat]? with
      | none => simp [markActioned, hi, hk]
      | some k =>
        cases hm : stks.MustGet k with
        | none => simp [markActioned, hi, hk, hm, Event.isMustGet]
        | some s =>
          simp only [markActioned, hi, if_false, hk, hm, List.mem_cons]
          rintro e (h | h)
          · left; rw [h]; rfl
          · exact ih _ e h

/-- With unique names, `Get` finds exactly the entries of the registry. -/
theorem get_eq_some_iff_mem (m : Map) (hnd : m.keys.Nodup) (k : String) (s : Stack) :
    m.Get k = some s ↔ (k, s) ∈ m.entries := by
  obtain ⟨l⟩ := m
  simp only [Map.Get, Map.keys] at hnd ⊢
  induction l with
  | nil => simp
  | cons e l ih =>
    obtain ⟨k0, s0⟩ := e
    have hnd' : (l.map Prod.fst).Nodup := (List.nodup_cons.1 hnd).2
    have hk0 : k0 ∉ l.map Prod.fst := (List.nodup_cons.1 hnd).1
    by_cases h : k0 = k
    · subst h
      simp only [List.find?, decide_True, Option.map_some', Option.some.injEq,
        List.mem_cons, Prod.mk.injEq, true_and]
      constructor
      · intro h; exact Or.inl h.symm
      · rintro (h | h)
        · exact h.symm
        · exact absurd (List.mem_map_of_mem Prod.fst h) hk0
    · simp only [List.find?, decide_eq_false h, List.mem_cons, Prod.mk.injEq]
      rw [ih hnd']
      constructor
      · intro h'; exact Or.inr h'
      · rintro (⟨h', -⟩ | h')
        · exact absurd h'.symm h
        · exact h'

/-! ## The `deploy` command -/

/-- The trace of `deploy` when the marking loop ran to its end: the checklist, the
forced lookups of the marking, the generation pass, then the handler. -/
theorem deploy_trace (env : Env) (choices : List Int) (stks stks1 : Map)
    (evs : List Event)
    (hmark : markActioned env (stackList stks) choices stks = (stks1, evs, none)) :
    (deployCmd env choices stks).trace =
      (Event.checklist (stackList stks)
          ("select stacks to " ++ env.ColorString "Deploy" Color.CYAN ++ ":") :: evs) ++
        (rangeEntries (genVisit env) stks1.entries []).2 ++
        [Event.deployHandler, Event.print (pressEnter env)] := by
  simp [deployCmd, hmark, Map.Range]

theorem genCalls_marking (env : Env) (stklist : List String) (choices : List Int)
    (stks : Map) : genCalls (markActioned env stklist choices stks).2.1 = [] := by
  rw [genCalls, List.filterMap_eq_nil_iff]
  intro e he
  rcases markActioned_events env stklist choices stks e he with h | h
  · cases e <;> simp_all [Event.isMustGet, Event.genCall?]
  · rw [h]; rfl

theorem deploy_genCalls (env : Env) (choices : List Int) (stks stks1 : Map)
    (evs : List Event)
    (hmark : markActioned env (stackList stks) choices stks = (stks1, evs, none)) :
    genCalls (deployCmd env choices stks).trace =
      genCalls (rangeEntries (genVisit env) stks1.entries []).2 := by
  have hev := genCalls_marking env (stackList stks) choices stks
  rw [hmark] at hev
  rw [deploy_trace env choices stks stks1 evs hmark, genCalls_append, genCalls_append,
    genCalls_cons, hev]
  simp [genCalls, Event.genCall?]

theorem nodup_actioned (m : Map) (hnd : m.keys.Nodup) : m.actioned.Nodup := by
  have h : m.actioned.Sublist m.keys := by
    simp only [Map.actioned, Map.keys]
    exact (List.filter_sublist _).map Prod.fst
  exact h.nodup hnd

/-- C5, as the code has it: the generation pass of `deploy` calls `GenTimeParser` on the
actioned stacks in visiting order, each at most once, up to and including the first
call that fails; that failure is logged and is the last call of the pass; when no call
fails every actioned stack is generated exactly once. -/
theorem deploy_generation_stops_at_failure (env : Env) (choices : List Int)
    (stks stks1 : Map) (evs : List Event) (hnd : stks.keys.Nodup)
    (hmark : markActioned env (stackList stks) choices stks = (stks1, evs, none)) :
    genCalls (deployCmd env choices stks).trace <+: stks1.actioned ∧
    (genCalls (deployCmd env choices stks).trace).Nodup ∧
    (∀ k s err, stks1.Get k = some s → env.GenTimeParser s = Except.error err →
      k ∈ genCalls (deployCmd env choices stks).trace →
      (genCalls (deployCmd env choices stks).trace).getLast? = some k ∧
        Event.logError err ∈ (deployCmd env choices stks).trace) ∧
    (genCalls (deployCmd env choices stks).trace = stks1.actioned ∨
      ∃ k s err, stks1.Get k = some s ∧ s.Actioned = true ∧
        env.GenTimeParser s = Except.error err ∧
        (genCalls (deployCmd env choices stks).trace).getLast? = some k) ∧
    ((∀ k s, stks1.Get k = some s → s.Actioned = true →
        ∃ tpl, env.GenTimeParser s = Except.ok tpl) →
      ∀ k ∈ stks1.actioned, (genCalls (deployCmd env choices stks).trace).count k = 1) := by
  have hnd1 : stks1.keys.Nodup := by
    obtain ⟨names, -, h2, -⟩ := markActioned_mark env (stackList stks) choices stks
    rw [hmark] at h2
    simp only at h2
    rw [h2, keys_mark]
    exact hnd
  have hcalls := deploy_genCalls env choices stks stks1 evs hmark
  have hpre : genCalls (deployCmd env choices stks).trace <+: stks1.actioned := by
    rw [hcalls]; exact genPass_initial env stks1.entries
  have hnodup : (genCalls (deployCmd env choices stks).trace).Nodup :=
    hpre.sublist.nodup (nodup_actioned stks1 hnd1)
  have hdone : genCalls (deployCmd env choices stks).trace = stks1.actioned ∨
      ∃ k s err, stks1.Get k = some s ∧ s.Actioned = true ∧
        env.GenTimeParser s = Except.error err ∧
        (genCalls (deployCmd env choices stks).trace).getLast? = some k := by
    rw [hcalls]
    rcases genPass_complete_or_failed env stks1.entries with h | ⟨k, s, err, h1, h2, h3, h4⟩
    · exact Or.inl h
    · exact Or.inr ⟨k, s, err, (get_eq_some_iff_mem stks1 hnd1 k s).2 h1, h2, h3, h4⟩
  refine ⟨hpre, hnodup, ?_, hdone, ?_⟩
  · intro k s err hget hg hk
    rw [hcalls] at hk ⊢
    obtain ⟨h1, h2⟩ := genPass_failure_last env stks1.entries hnd1 k s err
      ((get_eq_some_iff_mem stks1 hnd1 k s).1 hget) hg hk
    refine ⟨h1, ?_⟩
    rw [deploy_trace env choices stks stks1 evs hmark]
    simp [h2]
  · intro hall k hk
    rcases hdone with h | ⟨k', s, err, h1, h2, h3, -⟩
    · rw [h]
      exact List.count_eq_one_of_mem (nodup_actioned stks1 hnd1) hk
    · obtain ⟨tpl, ht⟩ := hall k' s h1 h2
      rw [ht] at h3
      cases h3

/-- The generation pass only calls `GenTimeParser` and logs errors. -/
theorem genPass_events (env : Env) (l : List (String × Stack)) :
    ∀ e ∈ (rangeEntries (genVisit env) l []).2,
      (∃ k, e = Event.genTimeParser k) ∨ ∃ err, e = Event.logError err := by
  induction l with
  | nil => simp [rangeEntries]
  | cons e l ih =>
    obtain ⟨k, s⟩ := e
    cases ha : s.Actioned
    · simpa [genPass_cons, ha] using ih
    · cases hg : env.GenTimeParser s with
      | error err => simp [genPass_cons, ha, hg]
      | ok tpl =>
        simp only [genPass_cons, ha, hg, if_true, List.mem_cons]
        rintro e (h | h)
        · exact Or.inl ⟨k, h⟩
        · exact ih e h

/-- C5 on `vpc` and `subnet`, both chosen, when generation fails on `vpc`: the pass
calls `GenTimeParser` on `vpc` only. -/
theorem deploy_generation_stops_at_failure_witness :
    twoStacks.keys.Nodup ∧
    markActioned vpcFailsEnv (stackList twoStacks) [0, 1] twoStacks =
      (twoStacks.mark ["vpc", "subnet"], [Event.mustGet "vpc", Event.mustGet "subnet"],
        none) ∧
    genCalls (deployCmd vpcFailsEnv [0, 1] twoStacks).trace <+:
      (twoStacks.mark ["vpc", "subnet"]).actioned ∧
    genCalls (deployCmd vpcFailsEnv [0, 1] twoStacks).trace = ["vpc"] :=
  ⟨by decide, by decide,
    (deploy_generation_stops_at_failure vpcFailsEnv [0, 1] twoStacks
      (twoStacks.mark ["vpc", "subnet"]) [Event.mustGet "vpc", Event.mustGet "subnet"]
      (by decide) (by decide)).1,
    by decide⟩

/-- C5 fails as stated: with `vpc` and `subnet` both actioned and generation failing on
`vpc`, `GenTimeParser` is never called on `subnet`. -/
theorem deploy_generation_skips_after_failure :
    (markActioned vpcFailsEnv (stackList twoStacks) [0, 1] twoStacks).1.actioned =
      ["vpc", "subnet"] ∧
    (deployCmd vpcFailsEnv [0, 1] twoStacks).trace.count (Event.genTimeParser "vpc") = 1 ∧
    (deployCmd vpcFailsEnv [0, 1] twoStacks).trace.count (Event.genTimeParser "subnet") = 0 ∧
    Event.logError "vpc: unresolved reference" ∈ (deployCmd vpcFailsEnv [0, 1] twoStacks).trace := by
  decide

/-- C3 fails as stated: deploying `vpc` and `subnet` together, the template of `subnet`
is resolved before `DeployHandler`, which deploys `vpc`, is called at all. -/
theorem deploy_resolves_subnet_before_vpc_deployed :
    (deployCmd plainEnv [0, 1] twoStacks).trace =
      [Event.checklist ["vpc", "subnet"] "select stacks to Deploy:",
        Event.mustGet "vpc", Event.mustGet "subnet",
        Event.genTimeParser "vpc", Event.genTimeParser "subnet",
        Event.deployHandler, Event.print "--\nPress ENTER to return\n--\n"] ∧
    (deployCmd plainEnv [0, 1] twoStacks).trace.indexOf (Event.genTimeParser "subnet") <
      (deployCmd plainEnv [0, 1] twoStacks).trace.indexOf Event.deployHandler := by
  decide

/-! ## The stack lists offered by the checklists -/

theorem rangeEntries_collectName (l : List (String × Stack)) (acc : List String) :
    rangeEntries collectName l acc = (l, acc ++ l.map Prod.fst) := by
  induction l generalizing acc with
  | nil => simp [rangeEntries]
  | cons e l ih =>
    obtain ⟨k, s⟩ := e
    rw [rangeEntries_cons_true collectName k s s acc (acc ++ [k]) l rfl, ih]
    simp

/-- The list built by `deploy` and `terminate` is the list of names in visiting order. -/
theorem stackList_eq_keys (stks : Map) : stackList stks = stks.keys := by
  simp [stackList, Map.Range, rangeEntries_collectName, Map.keys]

/-- The list built by `set-policy` is `Count()` empty strings followed by the names. -/
theorem policyStackList_eq (stks : Map) :
    policyStackList stks = List.replicate stks.Count "" ++ stks.keys := by
  simp [policyStackList, Map.Range, rangeEntries_collectName, Map.keys]

/-! ## The `Actioned` flags across commands -/

theorem policyCalls_cons (e : Event) (tr : List Event) :
    policyCalls (e :: tr) = (e.policyCall?).toList ++ policyCalls tr := by
  cases h : e.policyCall? <;> simp [policyCalls, List.filterMap_cons, h]

theorem policyCalls_append (a b : List Event) :
    policyCalls (a ++ b) = policyCalls a ++ policyCalls b := by
  simp [policyCalls, List.filterMap_append]

/-- The policy pass leaves the registry as it is and calls `StackPolicy` on the stacks
whose flag is set, in visiting order. -/
theorem policyPass (env : Env) (l : List (String × Stack)) (tr : List Event) :
    (rangeEntries (policyVisit env) l tr).1 = l ∧
    policyCalls (rangeEntries (policyVisit env) l tr).2 =
      policyCalls tr ++ (l.filter (fun e => e.2.Actioned)).map Prod.fst := by
  induction l generalizing tr with
  | nil => simp [rangeEntries]
  | cons e l ih =>
    obtain ⟨k, s⟩ := e
    cases ha : s.Actioned
    · have hv : policyVisit env k s tr = (s, tr, true) := by simp [policyVisit, ha]
      rw [rangeEntries_cons_true _ k s s tr tr l hv]
      simp [ih tr, ha]
    · cases hp : env.StackPolicy s with
      | some err =>
        have hv : policyVisit env k s tr =
            (s, tr ++ [Event.stackPolicy k, Event.logError err], true) := by
          simp [policyVisit, ha, hp]
        rw [rangeEntries_cons_true _ k s s tr _ l hv]
        refine ⟨by simp [(ih _).1], ?_⟩
        show policyCalls (rangeEntries (policyVisit env) l _).2 = _
        rw [(ih _).2, policyCalls_append]
        simp [policyCalls, Event.policyCall?, ha]
      | none =>
        have hv : policyVisit env k s tr = (s, tr ++ [Event.stackPolicy k], true) := by
          simp [policyVisit, ha, hp]
        rw [rangeEntries_cons_true _ k s s tr _ l hv]
        refine ⟨by simp [(ih _).1], ?_⟩
        show policyCalls (rangeEntries (policyVisit env) l _).2 = _
        rw [(ih _).2, policyCalls_append]
        simp [policyCalls, Event.policyCall?, ha]

theorem policyCalls_marking (env : Env) (stklist : List String) (choices : List Int)
    (stks : Map) : policyCalls (markActioned env stklist choices stks).2.1 = [] := by
  rw [policyCalls, List.filterMap_eq_nil_iff]
  intro e he
  rcases markActioned_events env stklist choices stks e he with h | h
  · cases e <;> simp_all [Event.isMustGet, Event.policyCall?]
  · rw [h]; rfl

/-- The marking loop returns early only at a negative index. -/
theorem markActioned_returned (env : Env) (stklist : List String) (choices : List Int)
    (stks : Map)
    (h : (markActioned env stklist choices stks).2.2 = some Status.returned) :
    ∃ i ∈ choices, i < 0 := by
  induction choices generalizing stks with
  | nil => simp [markActioned] at h
  | cons i rest ih =>
    by_cases hi : i < 0
    · exact ⟨i, List.mem_cons_self _ _, hi⟩
    · cases hk : stklist[i.toNat]? with
      | none => simp [markActioned, hi, hk] at h
      | some k =>
        cases hm : stks.MustGet k with
        | none => simp [markActioned, hi, hk, hm] at h
        | some s =>
          simp only [markActioned, hi, if_false, hk, hm] at h
          obtain ⟨j, hj, hneg⟩ := ih _ h
          exact ⟨j, List.mem_cons_of_mem _ hj, hneg⟩

theorem actioned_mark (m : Map) (names : List String) :
    (m.mark names).actioned =
      (m.entries.filter (fun e => e.2.Actioned || decide (e.1 ∈ names))).map Prod.fst := by
  obtain ⟨l⟩ := m
  simp only [Map.mark, Map.actioned]
  induction l with
  | nil => rfl
  | cons e l ih =>
    by_cases hn : e.1 ∈ names <;> cases ha : e.2.Actioned <;>
      simp [List.filter_cons, hn, ha] <;> simpa using ih

theorem actioned_subset_mark (m : Map) (names : List String) :
    m.actioned ⊆ (m.mark names).actioned := by
  rw [actioned_mark]
  intro k hk
  simp only [Map.actioned, List.mem_map, List.mem_filter] at hk ⊢
  obtain ⟨e, ⟨he, ha⟩, rfl⟩ := hk
  exact ⟨e, ⟨he, by simp [ha]⟩, rfl⟩

/-- C4 fails as stated: after `deploy` returns early at a negative index the stack
marked before it is still actioned; and of two `set-policy` runs in a row, the second
calls `StackPolicy` on `vpc` although only `subnet` is chosen in it. -/
theorem actioned_flag_survives_return :
    (deployCmd plainEnv [0, -1] twoStacks).status = Status.returned ∧
    (deployCmd plainEnv [0, -1] twoStacks).stks.actioned = ["vpc"] ∧
    (setPolicyCmd plainEnv [2] twoStacks).status = Status.returned ∧
    (setPolicyCmd plainEnv [2] twoStacks).stks.actioned = ["vpc"] ∧
    chosenNames (policyStackList (setPolicyCmd plainEnv [2] twoStacks).stks) [3] =
      ["subnet"] ∧
    policyCalls (setPolicyCmd plainEnv [3] (setPolicyCmd plainEnv [2] twoStacks).stks).trace =
      ["vpc", "subnet"] := by
  decide

/-- C9 fails on the code: for the registry of `vpc` and `subnet`, `set-policy` offers
four choices, the first two of them empty names, where `deploy` and `terminate` offer
the two names; choosing the first entry makes the forced lookup of the empty name,
which fails. -/
theorem setPolicy_offers_empty_names :
    twoStacks.Count = 2 ∧
    policyStackList twoStacks = ["", "", "vpc", "subnet"] ∧
    stackList twoStacks = ["vpc", "subnet"] ∧
    twoStacks.Get "" = none ∧
    setPolicyCmd plainEnv [0] twoStacks =
      ⟨twoStacks,
        [Event.checklist ["", "", "vpc", "subnet"] "select stacks to set-policy:",
          Event.mustGet ""],
        Status.crashed⟩ ∧
    (deployCmd plainEnv [0] twoStacks).status = Status.returned := by
  decide

/-! ## The `parameters` dump -/

theorem writeLocalDiffs_eq (env : Env) (locals : List Parameter) (p : Parameter)
    (w : List String) :
    writeLocalDiffs env locals p w =
      w ++ (locals.filter (fun q => decide (q.ParameterKey = p.ParameterKey ∧
          q.ParameterValue ≠ p.ParameterValue))).map
        (fun q => " vs. " ++ env.ColorString q.ParameterValue Color.RED) := by
  unfold writeLocalDiffs
  induction locals generalizing w with
  | nil => simp
  | cons q rest ih =>
    rw [List.foldl_cons, ih]
    by_cases hk : q.ParameterKey = p.ParameterKey <;>
      by_cases hv : q.ParameterValue = p.ParameterValue <;>
      simp [List.filter_cons, hk, hv]

/-- C8: the line written for a deployed parameter `p` is its key and value, then one
" vs. <local value>" for each local parameter with the key of `p` and another value,
and for no other local parameter, then the line end; without such a local parameter
the line carries no annotation. -/
theorem divergent_locals_annotated (env : Env) (locals : List Parameter) (p : Parameter) :
    writeParameter env locals [] p =
      [env.ColorString p.ParameterKey Color.CYAN ++ "\t " ++ p.ParameterValue] ++
        (locals.filter (fun q => decide (q.ParameterKey = p.ParameterKey ∧
            q.ParameterValue ≠ p.ParameterValue))).map
          (fun q => " vs. " ++ env.ColorString q.ParameterValue Color.RED) ++ ["\n"] ∧
    ((∀ q ∈ locals, q.ParameterKey = p.ParameterKey →
        q.ParameterValue = p.ParameterValue) →
      writeParameter env locals [] p =
        [env.ColorString p.ParameterKey Color.CYAN ++ "\t " ++ p.ParameterValue, "\n"]) := by
  have h : writeParameter env locals [] p =
      [env.ColorString p.ParameterKey Color.CYAN ++ "\t " ++ p.ParameterValue] ++
        (locals.filter (fun q => decide (q.ParameterKey = p.ParameterKey ∧
            q.ParameterValue ≠ p.ParameterValue))).map
          (fun q => " vs. " ++ env.ColorString q.ParameterValue Color.RED) ++ ["\n"] := by
    simp [writeParameter, writeLocalDiffs_eq]
  refine ⟨h, ?_⟩
  intro hall
  rw [h]
  have hnil : locals.filter (fun q => decide (q.ParameterKey = p.ParameterKey ∧
      q.ParameterValue ≠ p.ParameterValue)) = [] := by
    rw [List.filter_eq_nil_iff]
    intro q hq
    simp only [decide_eq_true_eq, not_and, not_not]
    exact hall q hq
  rw [hnil]
  rfl

/-- C8 on the sample parameters: `Env` is annotated with the local value, `Cidr` and
`Zone` are not. -/
theorem divergent_locals_annotated_witness :
    writeParameter plainEnv localParams [] ⟨"Env", "prod"⟩ =
      ["Env\t prod", " vs. dev", "\n"] ∧
    writeParameter plainEnv localParams [] ⟨"Zone", "b"⟩ = ["Zone\t b", "\n"] ∧
    writeParameter plainEnv localParams [] ⟨"Cidr", "10.0.0.0/16"⟩ =
      ["Cidr\t 10.0.0.0/16", "\n"] :=
  ⟨by decide,
    (divergent_locals_annotated plainEnv localParams ⟨"Zone", "b"⟩).2 (by decide),
    (divergent_locals_annotated plainEnv localParams ⟨"Cidr", "10.0.0.0/16"⟩).2
      (by decide)⟩

theorem foldl_writeParameter (env : Env) (locals ps : List Parameter) (w : List String) :
    ps.foldl (writeParameter env locals) w =
      w ++ (ps.map (writeParameter env locals [])).flatten := by
  induction ps generalizing w with
  | nil => simp
  | cons p rest ih =>
    rw [List.foldl_cons, ih]
    simp [writeParameter, writeLocalDiffs_eq]

/-- C7: what the dump writes for a record are the lines of its parameters, taken in an
order that is a permutation of the record's parameter list and non-decreasing in
`ParameterKey`. -/
theorem dump_key_ordered (env : Env) (locals : List Parameter) (stack : DeployedStack) :
    (sortSlice keyLess stack.Parameters).Perm stack.Parameters ∧
    (sortSlice keyLess stack.Parameters).Sorted
      (fun a b => a.ParameterKey ≤ b.ParameterKey) ∧
    dumpParameters env locals stack =
      ((sortSlice keyLess stack.Parameters).map (writeParameter env locals [])).flatten := by
  haveI : IsTotal Parameter (fun a b => ¬ keyLess b a) :=
    ⟨fun a b => by
      simp only [keyLess, not_lt]
      exact le_total _ _⟩
  haveI : IsTrans Parameter (fun a b => ¬ keyLess b a) :=
    ⟨fun a b c => by
      simp only [keyLess, not_lt]
      exact le_trans⟩
  refine ⟨List.perm_insertionSort _ _, ?_, ?_⟩
  · have h := List.sorted_insertionSort (fun a b => ¬ keyLess b a) stack.Parameters
    refine List.Pairwise.imp ?_ h
    intro a b hab
    simpa [keyLess] using hab
  · simp [dumpParameters, foldl_writeParameter]

/-- C7 on the sample record: the parameters come out as `Cidr`, `Env`, `Zone`. -/
theorem dump_key_ordered_witness :
    sortSlice keyLess deployedParams =
      [⟨"Cidr", "10.0.0.0/16"⟩, ⟨"Env", "prod"⟩, ⟨"Zone", "b"⟩] ∧
    dumpParameters plainEnv localParams ⟨deployedParams⟩ =
      ["Cidr\t 10.0.0.0/16", "\n", "Env\t prod", " vs. dev", "\n", "Zone\t b", "\n"] := by
  have h := (dump_key_ordered plainEnv localParams ⟨deployedParams⟩).2.2
  have hs : sortSlice keyLess deployedParams =
      [⟨"Cidr", "10.0.0.0/16"⟩, ⟨"Env", "prod"⟩, ⟨"Zone", "b"⟩] := by
    simp [sortSlice, deployedParams, List.insertionSort, List.orderedInsert, keyLess]
    decide
  refine ⟨hs, ?_⟩
  rw [h, hs]
  decide

/-! ## The marking loop on an answer whose first indices are valid -/

theorem get_mark (m : Map) (names : List String) (k : String) :
    (m.mark names).Get k =
      (m.Get k).map (fun s => if k ∈ names then { s with Actioned := true } else s) := by
  obtain ⟨l⟩ := m
  simp only [Map.mark, Map.Get]
  induction l with
  | nil => rfl
  | cons e l ih =>
    by_cases h : e.1 = k
    · subst h
      by_cases hn : e.1 ∈ names <;> simp [List.find?, hn]
    · by_cases hn : e.1 ∈ names
      · simp only [List.map_cons, if_pos hn, List.find?, decide_eq_false h]
        exact ih
      · simp only [List.map_cons, if_neg hn, List.find?, decide_eq_false h]
        exact ih

theorem validChoices_mark (stklist : List String) (stks : Map) (names : List String)
    (choices : List Int) :
    validChoices stklist (stks.mark names) choices = validChoices stklist stks choices := by
  unfold validChoices
  congr 1
  funext i
  cases hk : stklist[i.toNat]? with
  | none => rfl
  | some k => simp [get_mark]

theorem validChoices_cons (stklist : List String) (stks : Map) (i : Int)
    (rest : List Int) :
    validChoices stklist stks (i :: rest) = true ↔
      (0 ≤ i ∧ ∃ k s, stklist[i.toNat]? = some k ∧ stks.Get k = some s) ∧
        validChoices stklist stks rest = true := by
  unfold validChoices
  rw [List.all_cons, Bool.and_eq_true, Bool.and_eq_true, decide_eq_true_eq]
  cases hk : stklist[i.toNat]? with
  | none => simp
  | some k =>
    cases hg : stks.Get k with
    | none => simp [hg]
    | some s => simp [hg]

/-- On an answer that starts with valid indices the marking loop makes one forced lookup
for each of them, sets their flags, and goes on with the rest of the answer. -/
theorem markActioned_valid_append (env : Env) (stklist : List String)
    (good rest : List Int) (stks : Map) (hv : validChoices stklist stks good = true) :
    markActioned env stklist (good ++ rest) stks =
      ((markActioned env stklist rest (stks.mark (chosenNames stklist good))).1,
        (chosenNames stklist good).map Event.mustGet ++
          (markActioned env stklist rest (stks.mark (chosenNames stklist good))).2.1,
        (markActioned env stklist rest (stks.mark (chosenNames stklist good))).2.2) := by
  induction good generalizing stks with
  | nil => simp [chosenNames, mark_nil]
  | cons i g ih =>
    obtain ⟨⟨h0, k, s, hk, hg⟩, hrest⟩ := (validChoices_cons stklist stks i g).1 hv
    have hi : ¬ i < 0 := not_lt.2 h0
    have hv' : validChoices stklist (stks.mark [k]) g = true := by
      rw [validChoices_mark]; exact hrest
    have hch : chosenNames stklist (i :: g) = k :: chosenNames stklist g := by
      simp [chosenNames, hk]
    have hstep : markActioned env stklist (i :: (g ++ rest)) stks =
        ((markActioned env stklist (g ++ rest) (stks.mark [k])).1,
          Event.mustGet k :: (markActioned env stklist (g ++ rest) (stks.mark [k])).2.1,
          (markActioned env stklist (g ++ rest) (stks.mark [k])).2.2) := by
      simp only [markActioned, hi, if_false, hk, Map.MustGet, hg, modify_eq_mark]
    rw [List.cons_append, hstep, ih (stks.mark [k]) hv', mark_mark, hch]
    rfl

/-! ## The batch commands on an answer whose first indices are valid -/

/-- Flags that are set when a batch command starts are still set when it ends, unless
a handler was reached; and a `set-policy` run with no negative index that returns has
called `StackPolicy` on the stacks actioned before or chosen in it. -/
theorem actioned_kept (env : Env) (choices : List Int) (stks : Map) :
    stks.actioned ⊆ (setPolicyCmd env choices stks).stks.actioned ∧
    (Event.deployHandler ∉ (deployCmd env choices stks).trace →
      stks.actioned ⊆ (deployCmd env choices stks).stks.actioned) ∧
    (Event.terminateHandler ∉ (terminateCmd env choices stks).trace →
      stks.actioned ⊆ (terminateCmd env choices stks).stks.actioned) ∧
    ((∀ i ∈ choices, 0 ≤ i) → (setPolicyCmd env choices stks).status = Status.returned →
      policyCalls (setPolicyCmd env choices stks).trace =
        (stks.entries.filter (fun e => e.2.Actioned ||
          decide (e.1 ∈ chosenNames (policyStackList stks) choices))).map Prod.fst) := by
  refine ⟨?_, ?_, ?_, ?_⟩
  · obtain ⟨names, -, h2, -⟩ := markActioned_mark env (policyStackList stks) choices stks
    rcases hm : markActioned env (policyStackList stks) choices stks with ⟨stks1, evs, st⟩
    rw [hm] at h2
    simp only at h2
    have hs : (setPolicyCmd env choices stks).stks = stks1 := by
      cases st with
      | some st => simp [setPolicyCmd, hm]
      | none => simp [setPolicyCmd, hm, Map.Range, (policyPass env stks1.entries []).1]
    rw [hs, h2]
    exact actioned_subset_mark stks names
  · intro hno
    obtain ⟨names, -, h2, -⟩ := markActioned_mark env (stackList stks) choices stks
    rcases hm : markActioned env (stackList stks) choices stks with ⟨stks1, evs, st⟩
    rw [hm] at h2
    simp only at h2
    cases st with
    | some st =>
      have hs : (deployCmd env choices stks).stks = stks1 := by simp [deployCmd, hm]
      rw [hs, h2]
      exact actioned_subset_mark stks names
    | none =>
      exfalso
      apply hno
      rw [deploy_trace env choices stks stks1 evs hm]
      simp
  · intro hno
    obtain ⟨names, -, h2, -⟩ := markActioned_mark env (stackList stks) choices stks
    rcases hm : markActioned env (stackList stks) choices stks with ⟨stks1, evs, st⟩
    rw [hm] at h2
    simp only at h2
    cases st with
    | some st =>
      have hs : (terminateCmd env choices stks).stks = stks1 := by simp [terminateCmd, hm]
      rw [hs, h2]
      exact actioned_subset_mark stks names
    | none =>
      exfalso
      apply hno
      simp [terminateCmd, hm]
  · intro hpos hret
    obtain ⟨names, -, h2, h3⟩ := markActioned_mark env (policyStackList stks) choices stks
    have hr := markActioned_returned env (policyStackList stks) choices stks
    have hpc := policyCalls_marking env (policyStackList stks) choices stks
    rcases hm : markActioned env (policyStackList stks) choices stks with ⟨stks1, evs, st⟩
    rw [hm] at h2 h3 hr hpc
    simp only at h2 h3 hr hpc
    cases st with
    | some st =>
      exfalso
      have hst : (setPolicyCmd env choices stks).status = st := by simp [setPolicyCmd, hm]
      rw [hst] at hret
      subst hret
      obtain ⟨i, hi, hneg⟩ := hr rfl
      exact absurd (hpos i hi) (not_le.2 hneg)
    | none =>
      have ht : (setPolicyCmd env choices stks).trace =
          (Event.checklist (policyStackList stks)
            ("select stacks to " ++ env.ColorString "set-policy" Color.YELLOW ++ ":") ::
              evs) ++ (rangeEntries (policyVisit env) stks1.entries []).2 := by
        simp [setPolicyCmd, hm, Map.Range]
      rw [ht, policyCalls_append, policyCalls_cons, hpc, (policyPass env stks1.entries []).2,
        h2, h3 rfl, ← actioned_mark]
      simp [policyCalls, Event.policyCall?, Map.actioned]

theorem markActioned_negative (env : Env) (stklist : List String) (i : Int)
    (rest : List Int) (stks : Map) (hi : i < 0) :
    markActioned env stklist (i :: rest) stks =
      (stks, [Event.print (pressEnter env)], some Status.returned) := by
  simp [markActioned, hi]

/-- An index that is not negative and not valid makes the marking loop fail. -/
theorem markActioned_invalid (env : Env) (stklist : List String) (i : Int)
    (rest : List Int) (stks : Map) (hi : 0 ≤ i)
    (hbad : validChoices stklist stks [i] = false) :
    (markActioned env stklist (i :: rest) stks).2.2 = some Status.crashed := by
  have hneg : ¬ i < 0 := not_lt.2 hi
  cases hk : stklist[i.toNat]? with
  | none => simp [markActioned, hneg, hk]
  | some k =>
    cases hg : stks.Get k with
    | none => simp [markActioned, hneg, hk, Map.MustGet, hg]
    | some s =>
      exfalso
      have : validChoices stklist stks [i] = true := by
        rw [validChoices_cons]
        exact ⟨⟨hi, k, s, hk, hg⟩, rfl⟩
      rw [this] at hbad
      cases hbad

/-- When the marking loop does not run to its end, `deploy` ends as the loop did,
without a generation and without calling the handler. -/
theorem deploy_stopped (env : Env) (choices : List Int) (stks : Map) (st : Status)
    (h : (markActioned env (stackList stks) choices stks).2.2 = some st) :
    (deployCmd env choices stks).status = st ∧
    Event.deployHandler ∉ (deployCmd env choices stks).trace ∧
    genCalls (deployCmd env choices stks).trace = [] := by
  have hev := markActioned_events env (stackList stks) choices stks
  have hgc := genCalls_marking env (stackList stks) choices stks
  rcases hm : markActioned env (stackList stks) choices stks with ⟨stks1, evs, st'⟩
  rw [hm] at hev hgc h
  simp only at hev hgc h
  subst h
  have ht : (deployCmd env choices stks).trace =
      Event.checklist (stackList stks)
        ("select stacks to " ++ env.ColorString "Deploy" Color.CYAN ++ ":") :: evs := by
    simp [deployCmd, hm]
  refine ⟨by simp [deployCmd, hm], ?_, ?_⟩
  · rw [ht]
    intro h
    rcases List.mem_cons.1 h with h | h
    · cases h
    · rcases hev _ h with h' | h'
      · simp [Event.isMustGet] at h'
      · cases h'
  · rw [ht, genCalls_cons, hgc]; rfl

theorem deploy_early_return (env : Env) (good : List Int) (i : Int) (rest : List Int)
    (stks : Map) (hv : validChoices (stackList stks) stks good = true) (hi : i < 0) :
    deployCmd env (good ++ i :: rest) stks =
      ⟨stks.mark (chosenNames (stackList stks) good),
        Event.checklist (stackList stks) (selectMsg env "Deploy" Color.CYAN) ::
          ((chosenNames (stackList stks) good).map Event.mustGet ++
            [Event.print (pressEnter env)]),
        Status.returned⟩ := by
  have hm := markActioned_valid_append env (stackList stks) good (i :: rest) stks hv
  rw [markActioned_negative env _ i rest _ hi] at hm
  simp [deployCmd, hm, selectMsg]

theorem terminate_early_return (env : Env) (good : List Int) (i : Int) (rest : List Int)
    (stks : Map) (hv : validChoices (stackList stks) stks good = true) (hi : i < 0) :
    terminateCmd env (good ++ i :: rest) stks =
      ⟨stks.mark (chosenNames (stackList stks) good),
        Event.checklist (stackList stks) (selectMsg env "Terminate" Color.RED) ::
          ((chosenNames (stackList stks) good).map Event.mustGet ++
            [Event.print (pressEnter env)]),
        Status.returned⟩ := by
  have hm := markActioned_valid_append env (stackList stks) good (i :: rest) stks hv
  rw [markActioned_negative env _ i rest _ hi] at hm
  simp [terminateCmd, hm, selectMsg]

theorem setPolicy_early_return (env : Env) (good : List Int) (i : Int) (rest : List Int)
    (stks : Map) (hv : validChoices (policyStackList stks) stks good = true) (hi : i < 0) :
    setPolicyCmd env (good ++ i :: rest) stks =
      ⟨stks.mark (chosenNames (policyStackList stks) good),
        Event.checklist (policyStackList stks) (selectMsg env "set-policy" Color.YELLOW) ::
          ((chosenNames (policyStackList stks) good).map Event.mustGet ++
            [Event.print (pressEnter env)]),
        Status.returned⟩ := by
  have hm := markActioned_valid_append env (policyStackList stks) good (i :: rest) stks hv
  rw [markActioned_negative env _ i rest _ hi] at hm
  simp [setPolicyCmd, hm, selectMsg]

/-- On an answer of valid indices the marking loop runs to its end. -/
theorem markActioned_valid (env : Env) (stklist : List String) (good : List Int)
    (stks : Map) (hv : validChoices stklist stks good = true) :
    markActioned env stklist good stks =
      (stks.mark (chosenNames stklist good),
        (chosenNames stklist good).map Event.mustGet, none) := by
  have hm := markActioned_valid_append env stklist good [] stks hv
  simpa [markActioned] using hm

theorem deploy_complete (env : Env) (good : List Int) (stks : Map)
    (hv : validChoices (stackList stks) stks good = true) :
    deployCmd env good stks =
      ⟨env.DeployHandler
          ⟨(rangeEntries (genVisit env)
            (stks.mark (chosenNames (stackList stks) good)).entries []).1⟩,
        Event.checklist (stackList stks) (selectMsg env "Deploy" Color.CYAN) ::
          ((chosenNames (stackList stks) good).map Event.mustGet ++
            (rangeEntries (genVisit env)
              (stks.mark (chosenNames (stackList stks) good)).entries []).2 ++
            [Event.deployHandler, Event.print (pressEnter env)]),
        Status.returned⟩ := by
  simp [deployCmd, markActioned_valid env _ good stks hv, Map.Range, selectMsg]

theorem terminate_complete (env : Env) (good : List Int) (stks : Map)
    (hv : validChoices (stackList stks) stks good = true) :
    terminateCmd env good stks =
      ⟨env.TerminateHandler (stks.mark (chosenNames (stackList stks) good)),
        Event.checklist (stackList stks) (selectMsg env "Terminate" Color.RED) ::
          ((chosenNames (stackList stks) good).map Event.mustGet ++
            [Event.terminateHandler, Event.print (pressEnter env)]),
        Status.returned⟩ := by
  simp [terminateCmd, markActioned_valid env _ good stks hv, selectMsg]

theorem setPolicy_complete (env : Env) (good : List Int) (stks : Map)
    (hv : validChoices (policyStackList stks) stks good = true) :
    setPolicyCmd env good stks =
      ⟨stks.mark (chosenNames (policyStackList stks) good),
        Event.checklist (policyStackList stks) (selectMsg env "set-policy" Color.YELLOW) ::
          ((chosenNames (policyStackList stks) good).map Event.mustGet ++
            (rangeEntries (policyVisit env)
              (stks.mark (chosenNames (policyStackList stks) good)).entries []).2),
        Status.returned⟩ := by
  simp [setPolicyCmd, markActioned_valid env _ good stks hv, Map.Range, selectMsg,
    (policyPass env _ []).1]

/-- The generation pass changes no `Actioned` flag. -/
theorem genPass_actioned (env : Env) (l : List (String × Stack)) (tr : List Event) :
    ((rangeEntries (genVisit env) l tr).1.filter (fun e => e.2.Actioned)).map Prod.fst =
      (l.filter (fun e => e.2.Actioned)).map Prod.fst := by
  induction l generalizing tr with
  | nil => simp [rangeEntries]
  | cons e l ih =>
    obtain ⟨k, s⟩ := e
    cases ha : s.Actioned
    · rw [rangeEntries_cons_true _ k s _ tr _ l (genVisit_skip env k s tr ha)]
      simp [List.filter_cons, ha, ih]
    · cases hg : env.GenTimeParser s with
      | error err =>
        rw [rangeEntries_cons_false _ k s _ tr _ l (genVisit_fail env k s tr err ha hg)]
      | ok tpl =>
        rw [rangeEntries_cons_true _ k s _ tr _ l (genVisit_ok env k s tr tpl ha hg)]
        simp [List.filter_cons, ha, ih]

theorem genCalls_mustGets (names : List String) :
    genCalls (names.map Event.mustGet) = [] := by
  simp [genCalls, List.filterMap_eq_nil_iff, Event.genCall?]

theorem policyCalls_mustGets (names : List String) :
    policyCalls (names.map Event.mustGet) = [] := by
  simp [policyCalls, List.filterMap_eq_nil_iff, Event.policyCall?]

/-- C3, as the code has it: on an answer of valid indices `deploy` makes its forced
lookups, then the whole generation pass, then the one call of `DeployHandler`, then
prints the return line; so every call of `GenTimeParser` comes before the handler, and
when no generation fails every actioned stack is generated before it. When a negative
index follows the valid ones the command returns after the lookups, and when an invalid
index follows them it fails: in both cases nothing is generated and `DeployHandler` is
not called. -/
theorem deploy_resolves_all_before_handler (env : Env) (good : List Int) (i : Int)
    (rest : List Int) (stks : Map)
    (hv : validChoices (stackList stks) stks good = true) :
    (deployCmd env good stks).trace =
      (Event.checklist (stackList stks) (selectMsg env "Deploy" Color.CYAN) ::
        (chosenNames (stackList stks) good).map Event.mustGet) ++
      (rangeEntries (genVisit env)
        (stks.mark (chosenNames (stackList stks) good)).entries []).2 ++
      [Event.deployHandler, Event.print (pressEnter env)] ∧
    (deployCmd env good stks).status = Status.returned ∧
    Event.deployHandler ∉
      (Event.checklist (stackList stks) (selectMsg env "Deploy" Color.CYAN) ::
        (chosenNames (stackList stks) good).map Event.mustGet) ++
      (rangeEntries (genVisit env)
        (stks.mark (chosenNames (stackList stks) good)).entries []).2 ∧
    genCalls (deployCmd env good stks).trace =
      genCalls (rangeEntries (genVisit env)
        (stks.mark (chosenNames (stackList stks) good)).entries []).2 ∧
    ((∀ e ∈ (stks.mark (chosenNames (stackList stks) good)).entries,
        e.2.Actioned = true → ∃ tpl, env.GenTimeParser e.2 = Except.ok tpl) →
      genCalls (deployCmd env good stks).trace =
        (stks.mark (chosenNames (stackList stks) good)).actioned) ∧
    (i < 0 →
      deployCmd env (good ++ i :: rest) stks =
        ⟨stks.mark (chosenNames (stackList stks) good),
          Event.checklist (stackList stks) (selectMsg env "Deploy" Color.CYAN) ::
            ((chosenNames (stackList stks) good).map Event.mustGet ++
              [Event.print (pressEnter env)]),
          Status.returned⟩) ∧
    (0 ≤ i → validChoices (stackList stks) stks [i] = false →
      (deployCmd env (good ++ i :: rest) stks).status = Status.crashed ∧
      Event.deployHandler ∉ (deployCmd env (good ++ i :: rest) stks).trace ∧
      genCalls (deployCmd env (good ++ i :: rest) stks).trace = []) := by
  have hc := deploy_complete env good stks hv
  have hgen : genCalls (deployCmd env good stks).trace =
      genCalls (rangeEntries (genVisit env)
        (stks.mark (chosenNames (stackList stks) good)).entries []).2 := by
    rw [hc]
    simp only [genCalls_cons, genCalls_append, genCalls_mustGets]
    simp [genCalls, Event.genCall?]
  refine ⟨by rw [hc]; simp, by rw [hc], ?_, hgen, ?_, ?_, ?_⟩
  · intro h
    rcases List.mem_append.1 h with h | h
    · rcases List.mem_cons.1 h with h | h
      · cases h
      · obtain ⟨k, -, hk⟩ := List.mem_map.1 h
        cases hk
    · rcases genPass_events env _ _ h with ⟨k, h'⟩ | ⟨err, h'⟩ <;> cases h'
  · intro hall
    rw [hgen]
    rcases genPass_complete_or_failed env
      (stks.mark (chosenNames (stackList stks) good)).entries with h | ⟨k, s, err, h1, h2, h3, -⟩
    · exact h
    · obtain ⟨tpl, ht⟩ := hall (k, s) h1 h2
      rw [ht] at h3
      cases h3
  · intro hi
    exact deploy_early_return env good i rest stks hv hi
  · intro hi hbad
    apply deploy_stopped
    rw [markActioned_valid_append env (stackList stks) good (i :: rest) stks hv]
    apply markActioned_invalid env _ i rest _ hi
    rw [validChoices_mark]
    exact hbad

/-- C3 on `vpc` and `subnet`: with both chosen both templates are resolved before the
handler is called; with `vpc` chosen and then a negative index the command returns
without generation and without the handler. -/
theorem deploy_resolves_all_before_handler_witness :
    validChoices (stackList twoStacks) twoStacks [0, 1] = true ∧
    genCalls (deployCmd plainEnv [0, 1] twoStacks).trace = ["vpc", "subnet"] ∧
    validChoices (stackList twoStacks) twoStacks [0] = true ∧
    deployCmd plainEnv [0, -1] twoStacks =
      ⟨twoStacks.mark ["vpc"],
        [Event.checklist ["vpc", "subnet"] "select stacks to Deploy:",
          Event.mustGet "vpc", Event.print "--\nPress ENTER to return\n--\n"],
        Status.returned⟩ := by
  have h1 := (deploy_resolves_all_before_handler plainEnv [0, 1] 0 [] twoStacks
    (by decide)).2.2.2.2.1 (fun e _ _ => ⟨e.2.Source, rfl⟩)
  have h2 := (deploy_resolves_all_before_handler plainEnv [0] (-1) [] twoStacks
    (by decide)).2.2.2.2.2.1 (by decide)
  refine ⟨by decide, ?_, by decide, ?_⟩
  · rw [h1]; decide
  · exact h2.trans (by decide)

theorem policyStackList_mark (stks : Map) (names : List String) :
    policyStackList (stks.mark names) = policyStackList stks := by
  rw [policyStackList_eq, policyStackList_eq, keys_mark]
  simp [Map.Count, Map.mark]

/-- The policy pass of a `set-policy` run of valid indices calls `StackPolicy` on the
stacks whose flag is set once the chosen ones are marked. -/
theorem setPolicy_calls (env : Env) (good : List Int) (stks : Map)
    (hv : validChoices (policyStackList stks) stks good = true) :
    policyCalls (setPolicyCmd env good stks).trace =
      (stks.mark (chosenNames (policyStackList stks) good)).actioned := by
  rw [setPolicy_complete env good stks hv]
  simp only [policyCalls_cons, policyCalls_append, policyCalls_mustGets,
    (policyPass env _ []).2]
  simp [policyCalls, Event.policyCall?, Map.actioned]

/-- C4, as the code has it: the batch commands only ever set `Actioned`. A flag that is
set when a command starts is still set when it ends without reaching a handler. On an
answer of valid indices `set-policy` returns with the registry in which the chosen
stacks are marked in addition to those marked before, and it has called `StackPolicy`
on exactly the stacks marked then; a second `set-policy` run calls it on the stacks
chosen in either run or marked before. When a negative index follows the valid ones,
`set-policy`, `deploy` and `terminate` return with the stacks chosen before it marked.
On valid indices `terminate` hands its handler the registry with the chosen stacks
marked, and so does `deploy`, whose generation pass changes no flag. -/
theorem actioned_flags_persist (env : Env) (choices good : List Int) (i : Int)
    (rest next : List Int) (stks : Map) :
    stks.actioned ⊆ (setPolicyCmd env choices stks).stks.actioned ∧
    (Event.deployHandler ∉ (deployCmd env choices stks).trace →
      stks.actioned ⊆ (deployCmd env choices stks).stks.actioned) ∧
    (Event.terminateHandler ∉ (terminateCmd env choices stks).trace →
      stks.actioned ⊆ (terminateCmd env choices stks).stks.actioned) ∧
    ((∀ j ∈ choices, 0 ≤ j) → (setPolicyCmd env choices stks).status = Status.returned →
      policyCalls (setPolicyCmd env choices stks).trace =
        (stks.entries.filter (fun e => e.2.Actioned ||
          decide (e.1 ∈ chosenNames (policyStackList stks) choices))).map Prod.fst) ∧
    (∀ names, (stks.mark names).actioned =
      (stks.entries.filter (fun e => e.2.Actioned || decide (e.1 ∈ names))).map Prod.fst) ∧
    (validChoices (policyStackList stks) stks good = true →
      (setPolicyCmd env good stks).stks =
        stks.mark (chosenNames (policyStackList stks) good) ∧
      (setPolicyCmd env good stks).status = Status.returned ∧
      policyCalls (setPolicyCmd env good stks).trace =
        (stks.mark (chosenNames (policyStackList stks) good)).actioned ∧
      (i < 0 →
        setPolicyCmd env (good ++ i :: rest) stks =
          ⟨stks.mark (chosenNames (policyStackList stks) good),
            Event.checklist (policyStackList stks)
                (selectMsg env "set-policy" Color.YELLOW) ::
              ((chosenNames (policyStackList stks) good).map Event.mustGet ++
                [Event.print (pressEnter env)]),
            Status.returned⟩) ∧
      (validChoices (policyStackList stks) stks next = true →
        policyCalls (setPolicyCmd env next (setPolicyCmd env good stks).stks).trace =
          (stks.mark (chosenNames (policyStackList stks) good ++
            chosenNames (policyStackList stks) next)).actioned)) ∧
    (validChoices (stackList stks) stks good = true →
      (i < 0 →
        deployCmd env (good ++ i :: rest) stks =
          ⟨stks.mark (chosenNames (stackList stks) good),
            Event.checklist (stackList stks) (selectMsg env "Deploy" Color.CYAN) ::
              ((chosenNames (stackList stks) good).map Event.mustGet ++
                [Event.print (pressEnter env)]),
            Status.returned⟩) ∧
      (i < 0 →
        terminateCmd env (good ++ i :: rest) stks =
          ⟨stks.mark (chosenNames (stackList stks) good),
            Event.checklist (stackList stks) (selectMsg env "Terminate" Color.RED) ::
              ((chosenNames (stackList stks) good).map Event.mustGet ++
                [Event.print (pressEnter env)]),
            Status.returned⟩) ∧
      terminateCmd env good stks =
        ⟨env.TerminateHandler (stks.mark (chosenNames (stackList stks) good)),
          Event.checklist (stackList stks) (selectMsg env "Terminate" Color.RED) ::
            ((chosenNames (stackList stks) good).map Event.mustGet ++
              [Event.terminateHandler, Event.print (pressEnter env)]),
          Status.returned⟩ ∧
      (deployCmd env good stks).stks =
        env.DeployHandler
          ⟨(rangeEntries (genVisit env)
            (stks.mark (chosenNames (stackList stks) good)).entries []).1⟩ ∧
      (Map.mk (rangeEntries (genVisit env)
          (stks.mark (chosenNames (stackList stks) good)).entries []).1).actioned =
        (stks.mark (chosenNames (stackList stks) good)).actioned) := by
  obtain ⟨k1, k2, k3, k4⟩ := actioned_kept env choices stks
  refine ⟨k1, k2, k3, k4, fun names => actioned_mark stks names, ?_, ?_⟩
  · intro hv
    have hc := setPolicy_complete env good stks hv
    refine ⟨by rw [hc], by rw [hc], setPolicy_calls env good stks hv,
      fun hi => setPolicy_early_return env good i rest stks hv hi, ?_⟩
    intro hnext
    have hs : (setPolicyCmd env good stks).stks =
        stks.mark (chosenNames (policyStackList stks) good) := by rw [hc]
    rw [hs]
    have hv2 : validChoices
        (policyStackList (stks.mark (chosenNames (policyStackList stks) good)))
        (stks.mark (chosenNames (policyStackList stks) good)) next = true := by
      rw [policyStackList_mark, validChoices_mark]
      exact hnext
    rw [setPolicy_calls env next _ hv2, policyStackList_mark, mark_mark]
  · intro hv
    refine ⟨fun hi => deploy_early_return env good i rest stks hv hi,
      fun hi => terminate_early_return env good i rest stks hv hi,
      terminate_complete env good stks hv, ?_, ?_⟩
    · rw [deploy_complete env good stks hv]
    · simp only [Map.actioned]
      exact genPass_actioned env _ []

/-- C4 on two `set-policy` runs in a row: the first, choosing `vpc`, leaves `vpc`
marked; the second, choosing `subnet`, calls `StackPolicy` on `vpc` and `subnet`. -/
theorem actioned_flags_persist_witness :
    validChoices (policyStackList twoStacks) twoStacks [2] = true ∧
    validChoices (policyStackList twoStacks) twoStacks [3] = true ∧
    (setPolicyCmd plainEnv [2] twoStacks).stks = twoStacks.mark ["vpc"] ∧
    policyCalls (setPolicyCmd plainEnv [3] (setPolicyCmd plainEnv [2] twoStacks).stks).trace =
      ["vpc", "subnet"] := by
  have h := (actioned_flags_persist plainEnv [] [2] 0 [] [3] twoStacks).2.2.2.2.2.1
    (by decide)
  refine ⟨by decide, by decide, h.1.trans (by decide), ?_⟩
  rw [h.2.2.2.2 (by decide)]
  decide

end Qaz
